import Mathlib

/-!
# Verification of the Consul ACL policy validator (`main.go`)

A shallow embedding of `Parse` and of the four rule parsers of `main.go`,
together with the part of the HCL v2 library they call
(`Body.Content`, `Diagnostics.HasErrors`, `Diagnostics.Errs`,
`gohcl.DecodeExpression`).

Conventions of the embedding.

* The syntax loader `hclparse.Parser.ParseHCLFile` is an external collaborator:
  `Parse` takes it as a function from a file name to a file (absent when the
  file could not be read) and a list of diagnostics. The native-syntax loader
  reports error diagnostics only; a theorem that relies on it says so as a
  hypothesis on the loader.
* `log.Fatalf` terminates the process and a Go run-time panic unwinds it:
  `Parse` returns an `Outcome`, which is either `returned v`, `fatal msg` or
  `panicked msg`.
* Pointers to rules are embedded as the rules themselves, a nil slice as `[]`,
  a nil `*ACLPolicy` as `none`.
* A Go `error` made from a `*hcl.Diagnostic` is embedded as the diagnostic; its
  text is `Diagnostic.Error`.
-/

set_option autoImplicit false

namespace ACLValidator

/-! ## HCL source positions and diagnostics -/

/-- Models `hcl.Pos`: a line and a column, both counted from 1. -/
structure Pos where
  Line : Nat
  Column : Nat
  deriving DecidableEq, Repr

/-- Models `hcl.Range`: a span of one file. -/
structure Range where
  Filename : String
  Start : Pos
  End : Pos
  deriving DecidableEq, Repr

/-- Models `hcl.DiagnosticSeverity`. -/
inductive DiagnosticSeverity where
  | DiagError
  | DiagWarning
  deriving DecidableEq, Repr

/-- Models `hcl.Diagnostic` with the fields that `Error()` and `HasErrors()` read.
`Subject` is a pointer in Go and may be nil. -/
structure Diagnostic where
  Severity : DiagnosticSeverity
  Summary : String
  Detail : String
  Subject : Option Range
  deriving DecidableEq, Repr

/-- Models `hcl.Diagnostics`, a slice of diagnostics. -/
abbrev Diagnostics := List Diagnostic

/-- Models `Range.String()`: `file:line,col-col` on one line, and
`file:line,col-line,col` across lines. -/
def Range.String (r : Range) : String :=
  if r.Start.Line = r.End.Line then
    r.Filename ++ ":" ++ toString r.Start.Line ++ "," ++ toString r.Start.Column
      ++ "-" ++ toString r.End.Column
  else
    r.Filename ++ ":" ++ toString r.Start.Line ++ "," ++ toString r.Start.Column
      ++ "-" ++ toString r.End.Line ++ "," ++ toString r.End.Column

/-- Models `(*Diagnostic).Error()`: `fmt.Sprintf("%s: %s; %s", Subject, Summary, Detail)`;
a nil subject prints as `<nil>`. -/
def Diagnostic.Error (d : Diagnostic) : String :=
  (match d.Subject with
    | some r => r.String
    | none => "<nil>") ++ ": " ++ d.Summary ++ "; " ++ d.Detail

/-- Models `Diagnostics.Error()`, the text `%v` prints for a list of diagnostics. -/
def Diagnostics.Error (d : Diagnostics) : String :=
  match d with
  | [] => "no diagnostics"
  | [d0] => d0.Error
  | d0 :: rest =>
    d0.Error ++ ", and " ++ toString rest.length ++ " other diagnostic(s)"

/-- Models `Diagnostics.HasErrors()`: some diagnostic has severity `DiagError`. -/
def HasErrors (d : Diagnostics) : Bool :=
  d.any (fun diag => decide (diag.Severity = DiagnosticSeverity.DiagError))

/-- Models `Diagnostics.Errs()`: the diagnostics of severity `DiagError`, in order,
each as an error value. -/
def Errs (d : Diagnostics) : List Diagnostic :=
  d.filter (fun diag => decide (diag.Severity = DiagnosticSeverity.DiagError))

/-! ## HCL syntax trees and schemas -/

/-- Models an `hcl.Expression` as seen through `gohcl.DecodeExpression` with a
text target and a nil evaluation context: either the expression converts to a
text, or decoding reports an error diagnostic (possibly followed by more). -/
inductive Expression where
  | text (value : String)
  | failing (Summary Detail : String) (Subject : Option Range) (more : Diagnostics)
  deriving Repr

/-- Models `gohcl.DecodeExpression(expr, nil, &target)`: the new content of the
target and the diagnostics returned. The target is left as it was on failure. -/
def DecodeExpression (expr : Expression) (target : String) : String × Diagnostics :=
  match expr with
  | .text value => (value, [])
  | .failing s d r more => (target, ⟨DiagnosticSeverity.DiagError, s, d, r⟩ :: more)

/-- Models `hcl.Attribute`: a name, its expression and the range of the name. -/
structure Attribute where
  Name : String
  Expr : Expression
  NameRange : Range
  deriving Repr

mutual
/-- Models `hclsyntax.Body`. `Attributes` is a Go map keyed by name (the loader
rejects a redefinition), listed here in the order Go happens to iterate it;
`Blocks` is in source order. -/
inductive Body where
  | mk (Attributes : List Attribute) (Blocks : List Block) (MissingItemRange : Range)
/-- Models `hclsyntax.Block` and the `hcl.Block` it converts to: the header
keyword, the labels with their ranges, the body and the range of the keyword. -/
inductive Block where
  | mk (Typ : String) (Labels : List (String × Range)) (body : Body) (TypeRange : Range)
end

/-- The attributes of a body. -/
def Body.Attributes : Body → List Attribute
  | .mk attrs _ _ => attrs

/-- The child blocks of a body, in source order. -/
def Body.Blocks : Body → List Block
  | .mk _ blocks _ => blocks

/-- Models `Body.MissingItemRange()`. -/
def Body.MissingItemRange : Body → Range
  | .mk _ _ r => r

/-- The header keyword of a block (Go field `Type`). -/
def Block.Typ : Block → String
  | .mk t _ _ _ => t

/-- The labels of a block header, each with its range. -/
def Block.Labels : Block → List (String × Range)
  | .mk _ l _ _ => l

/-- The body of a block (Go field `Body`). -/
def Block.body : Block → Body
  | .mk _ _ b _ => b

/-- The range of the header keyword. -/
def Block.TypeRange : Block → Range
  | .mk _ _ _ r => r

/-- Models `hcl.File`; only the root body is read. -/
structure File where
  body : Body

/-- Models `hcl.BlockHeaderSchema`. Every schema of `main.go` sets `Type` only,
so `LabelNames` is empty throughout and is not represented. -/
structure BlockHeaderSchema where
  Typ : String
  deriving DecidableEq, Repr

/-- Models `hcl.AttributeSchema`. -/
structure AttributeSchema where
  Name : String
  Required : Bool
  deriving DecidableEq, Repr

/-- Models `hcl.BodySchema`. -/
structure BodySchema where
  Attributes : List AttributeSchema
  Blocks : List BlockHeaderSchema
  deriving DecidableEq, Repr

/-- Models `hcl.BodyContent`: the attributes and blocks a schema selected. -/
structure BodyContent where
  Attributes : List Attribute
  Blocks : List Block

/-- Lookup in the attribute map: `m[name]` with its `exists` flag. -/
def lookupAttr (attrs : List Attribute) (name : String) : Option Attribute :=
  attrs.find? (fun a => a.Name == name)

/-! ## Schema application: `Body.PartialContent` and `Body.Content` -/

/-- Models the `%q` verb of `fmt` on a text that needs no escaping, such as an
HCL identifier: the text between double quotes. The escaping that `%q` applies to
a quote, a backslash or a non-printable character is not modelled. -/
def quote (s : String) : String :=
  "\"" ++ s ++ "\""

/-- One row of the edit-distance table: `c` is the next character of the first
text, `up` walks the previous row, `diag` and `left` are the neighbouring cells. -/
def levStep (c : Char) : List Char → List Nat → Nat → Nat → List Nat
  | tc :: ts, up :: ps, diag, left =>
    let v := min (min (up + 1) (left + 1)) (diag + if c = tc then 0 else 1)
    v :: levStep c ts ps up v
  | _, _, _, _ => []

/-- The next row of the edit-distance table from the previous one. -/
def levRow (c : Char) (t : List Char) (prev : List Nat) : List Nat :=
  match prev with
  | [] => []
  | d :: ps => (d + 1) :: levStep c t ps d (d + 1)

/-- Models `levenshtein.Distance(given, suggestion, nil)`: the edit distance with
unit costs for insertion, deletion and substitution. -/
def levenshteinDistance (s t : String) : Nat :=
  ((s.toList.foldl (fun row c => levRow c t.toList row)
    (List.range (t.toList.length + 1))).getLast?).getD 0

/-- Models `nameSuggestion`: the first suggestion at edit distance below 3, or
the empty text. -/
def nameSuggestion (given : String) : List String → String
  | [] => ""
  | suggestion :: rest =>
    if levenshteinDistance given suggestion < 3 then suggestion
    else nameSuggestion given rest

/-- The diagnostic of `PartialContent` for a required attribute that is absent. -/
def missingArgument (b : Body) (name : String) : Diagnostic :=
  { Severity := DiagnosticSeverity.DiagError
    Summary := "Missing required argument"
    Detail := "The argument " ++ quote name ++ " is required, but no definition was found."
    Subject := some b.MissingItemRange }

/-- The diagnostic of `PartialContent` for a label on a block whose schema names
no labels. -/
def extraneousLabel (name : String) (labelRange : Range) : Diagnostic :=
  { Severity := DiagnosticSeverity.DiagError
    Summary := "Extraneous label for " ++ name
    Detail := "No labels are expected for " ++ name ++ " blocks."
    Subject := some labelRange }

/-- The loop of `PartialContent` over `schema.Attributes`: the attributes found
in the body, and a diagnostic for each required attribute that is absent. -/
def attrLoop (b : Body) : List AttributeSchema → List Attribute × Diagnostics
  | [] => ([], [])
  | attrS :: rest =>
    let r := attrLoop b rest
    match lookupAttr b.Attributes attrS.Name with
    | none =>
      if attrS.Required then (r.1, missingArgument b attrS.Name :: r.2) else r
    | some attr => (attr :: r.1, r.2)

/-- The loop of `PartialContent` over the blocks of the body: a block whose type
the schema does not want is passed over, a wanted block with a label is
reported and dropped, any other wanted block is kept. -/
def blockLoop (schema : BodySchema) : List Block → List Block × Diagnostics
  | [] => ([], [])
  | block :: rest =>
    let r := blockLoop schema rest
    if schema.Blocks.any (fun blockS => blockS.Typ == block.Typ) then
      match block.Labels with
      | l :: _ => (r.1, extraneousLabel block.Typ l.2 :: r.2)
      | [] => (block :: r.1, r.2)
    else r

/-- Models `(*hclsyntax.Body).PartialContent` on a body fresh from the loader
(nothing hidden yet): the content and the diagnostics, attributes first. -/
def Body.PartialContent (b : Body) (schema : BodySchema) : BodyContent × Diagnostics :=
  let a := attrLoop b schema.Attributes
  let k := blockLoop schema b.Blocks
  ({ Attributes := a.1, Blocks := k.1 }, a.2 ++ k.2)

/-- The diagnostic of `Content` for an attribute the schema does not declare. -/
def unsupportedArgument (schema : BodySchema) (content : BodyContent) (attr : Attribute) :
    Diagnostic :=
  let suggestions := (schema.Attributes.filter
    (fun attrS => (lookupAttr content.Attributes attrS.Name).isNone)).map (fun attrS => attrS.Name)
  let suggestion := nameSuggestion attr.Name suggestions
  let hint :=
    if suggestion ≠ "" then " Did you mean " ++ quote suggestion ++ "?"
    else if schema.Blocks.any (fun blockS => blockS.Typ == attr.Name) then
      " Did you mean to define a block of type " ++ quote attr.Name ++ "?"
    else ""
  { Severity := DiagnosticSeverity.DiagError
    Summary := "Unsupported argument"
    Detail := "An argument named " ++ quote attr.Name ++ " is not expected here." ++ hint
    Subject := some attr.NameRange }

/-- The diagnostic of `Content` for a block whose type the schema does not declare. -/
def unsupportedBlock (schema : BodySchema) (block : Block) : Diagnostic :=
  let suggestion := nameSuggestion block.Typ (schema.Blocks.map (fun blockS => blockS.Typ))
  let hint :=
    if suggestion ≠ "" then " Did you mean " ++ quote suggestion ++ "?"
    else if schema.Attributes.any (fun attrS => attrS.Name == block.Typ) then
      " Did you mean to define argument " ++ quote block.Typ
        ++ "? If so, use the equals sign to assign it a value."
    else ""
  { Severity := DiagnosticSeverity.DiagError
    Summary := "Unsupported block type"
    Detail := "Blocks of type " ++ quote block.Typ ++ " are not expected here." ++ hint
    Subject := some block.TypeRange }

/-- Models `(*hclsyntax.Body).Content`: `PartialContent`, then a diagnostic for
every attribute and every block of the body that the schema left over. -/
def Body.Content (b : Body) (schema : BodySchema) : BodyContent × Diagnostics :=
  let pc := b.PartialContent schema
  let content := pc.1
  let attrDiags := (b.Attributes.filter
    (fun attr => !(schema.Attributes.any (fun attrS => attrS.Name == attr.Name)))).map
      (unsupportedArgument schema content)
  let blockDiags := (b.Blocks.filter
    (fun block => !(schema.Blocks.any (fun blockS => blockS.Typ == block.Typ)))).map
      (unsupportedBlock schema)
  (content, pc.2 ++ attrDiags ++ blockDiags)

/-! ## The program: data model and schemas of `main.go` -/

/-- NodeRule represents a rule for a node. -/
structure NodeRule where
  Name : String
  Policy : String
  deriving DecidableEq, Repr

/-- A rule for a service; `Intentions` may be empty. -/
structure ServiceRule where
  Name : String
  Policy : String
  Intentions : String
  deriving DecidableEq, Repr

/-- The parsed policy document. -/
structure ACLPolicy where
  ACL : String
  Nodes : List NodeRule
  NodePrefixes : List NodeRule
  Services : List ServiceRule
  ServicePrefixes : List ServiceRule
  deriving DecidableEq, Repr

/-- The top-level schema: blocks of type `policy`. -/
def aclPolicySchema : BodySchema :=
  { Blocks := [⟨"policy"⟩]
    Attributes := [] }

/-- The schema of a policy body. -/
def policyBlockSchema : BodySchema :=
  { Blocks := [⟨"node"⟩, ⟨"node_prefix"⟩, ⟨"service"⟩, ⟨"service_prefix"⟩]
    Attributes := [⟨"acl", true⟩] }

/-- The schema of a `node` rule body. -/
def nodeRuleBlockSchema : BodySchema :=
  { Blocks := [⟨"node"⟩]
    Attributes := [⟨"name", false⟩, ⟨"policy", true⟩] }

/-- The schema of a `node_prefix` rule body. -/
def nodePrefixBlockSchema : BodySchema :=
  { Blocks := [⟨"node_prefix"⟩]
    Attributes := [⟨"name", false⟩, ⟨"policy", true⟩] }

/-- The schema of a `service` rule body. -/
def serviceRuleBlockSchema : BodySchema :=
  { Blocks := [⟨"service"⟩]
    Attributes := [⟨"name", false⟩, ⟨"policy", true⟩] }

/-- The schema of a `service_prefix` rule body. -/
def servicePrefixBlockSchema : BodySchema :=
  { Blocks := [⟨"service_prefix"⟩]
    Attributes := [⟨"name", false⟩, ⟨"policy", true⟩] }

/-! ## The program: `Parse` and the four rule parsers -/

/-- How a call ends: it returns a value, `log.Fatalf` terminates the process with
a message, or a Go run-time panic is raised. -/
inductive Outcome (α : Type) where
  | returned (value : α)
  | fatal (msg : String)
  | panicked (msg : String)
  deriving DecidableEq, Repr

/-- Sequencing: the rest of the function runs only after a normal return. -/
def Outcome.bind {α β : Type} (x : Outcome α) (f : α → Outcome β) : Outcome β :=
  match x with
  | .returned v => f v
  | .fatal msg => .fatal msg
  | .panicked msg => .panicked msg

instance : Monad Outcome where
  pure := Outcome.returned
  bind := Outcome.bind

/-- The rule parser of `node` blocks: applies the schema, decodes `name` when it
exists and `policy` when it exists, and appends the rule to `Nodes`. Every
diagnostic with an error ends the process through `log.Fatalf`. -/
def parseNodeBlock (body : Body) (aclPolicy : ACLPolicy) : Outcome ACLPolicy :=
  let r := body.Content nodeRuleBlockSchema
  let blockNode := r.1
  let blockNodeDiags := r.2
  if HasErrors blockNodeDiags then
    .fatal ("block content error: " ++ Diagnostics.Error blockNodeDiags)
  else do
    let name ← (match lookupAttr blockNode.Attributes "name" with
      | some attr =>
        let d := DecodeExpression attr.Expr ""
        if HasErrors d.2 then
          Outcome.fatal ("decode name attr error: " ++ Diagnostics.Error d.2)
        else Outcome.returned d.1
      | none => Outcome.returned "")
    let policy ← (match lookupAttr blockNode.Attributes "policy" with
      | some attr =>
        let d := DecodeExpression attr.Expr ""
        if HasErrors d.2 then
          Outcome.fatal ("decode policy attr error: " ++ Diagnostics.Error d.2)
        else Outcome.returned d.1
      | none => Outcome.returned "")
    Outcome.returned
      { aclPolicy with Nodes := aclPolicy.Nodes ++ [{ Policy := policy, Name := name }] }

/-- The rule parser of `node_prefix` blocks; appends to `NodePrefixes`. -/
def parseNodePrefixBlock (body : Body) (aclPolicy : ACLPolicy) : Outcome ACLPolicy :=
  let r := body.Content nodePrefixBlockSchema
  let blockNode := r.1
  let blockNodeDiags := r.2
  if HasErrors blockNodeDiags then
    .fatal ("block content error: " ++ Diagnostics.Error blockNodeDiags)
  else do
    let name ← (match lookupAttr blockNode.Attributes "name" with
      | some attr =>
        let d := DecodeExpression attr.Expr ""
        if HasErrors d.2 then
          Outcome.fatal ("decode name attr error: " ++ Diagnostics.Error d.2)
        else Outcome.returned d.1
      | none => Outcome.returned "")
    let policy ← (match lookupAttr blockNode.Attributes "policy" with
      | some attr =>
        let d := DecodeExpression attr.Expr ""
        if HasErrors d.2 then
          Outcome.fatal ("decode policy attr error: " ++ Diagnostics.Error d.2)
        else Outcome.returned d.1
      | none => Outcome.returned "")
    Outcome.returned
      { aclPolicy with
        NodePrefixes := aclPolicy.NodePrefixes ++ [{ Policy := policy, Name := name }] }

/-- The rule parser of `service` blocks; appends to `Services`. `Intentions` is
not set and keeps Go's zero value, the empty text. -/
def parseServiceBlock (body : Body) (aclPolicy : ACLPolicy) : Outcome ACLPolicy :=
  let r := body.Content serviceRuleBlockSchema
  let blockNode := r.1
  let blockNodeDiags := r.2
  if HasErrors blockNodeDiags then
    .fatal ("block content error: " ++ Diagnostics.Error blockNodeDiags)
  else do
    let name ← (match lookupAttr blockNode.Attributes "name" with
      | some attr =>
        let d := DecodeExpression attr.Expr ""
        if HasErrors d.2 then
          Outcome.fatal ("decode name attr error: " ++ Diagnostics.Error d.2)
        else Outcome.returned d.1
      | none => Outcome.returned "")
    let policy ← (match lookupAttr blockNode.Attributes "policy" with
      | some attr =>
        let d := DecodeExpression attr.Expr ""
        if HasErrors d.2 then
          Outcome.fatal ("decode policy attr error: " ++ Diagnostics.Error d.2)
        else Outcome.returned d.1
      | none => Outcome.returned "")
    Outcome.returned
      { aclPolicy with
        Services := aclPolicy.Services ++ [{ Policy := policy, Name := name, Intentions := "" }] }

/-- The rule parser of `service_prefix` blocks; appends to `ServicePrefixes`. -/
def parseServicePrefixBlock (body : Body) (aclPolicy : ACLPolicy) : Outcome ACLPolicy :=
  let r := body.Content servicePrefixBlockSchema
  let blockNode := r.1
  let blockNodeDiags := r.2
  if HasErrors blockNodeDiags then
    .fatal ("block content error: " ++ Diagnostics.Error blockNodeDiags)
  else do
    let name ← (match lookupAttr blockNode.Attributes "name" with
      | some attr =>
        let d := DecodeExpression attr.Expr ""
        if HasErrors d.2 then
          Outcome.fatal ("decode name attr error: " ++ Diagnostics.Error d.2)
        else Outcome.returned d.1
      | none => Outcome.returned "")
    let policy ← (match lookupAttr blockNode.Attributes "policy" with
      | some attr =>
        let d := DecodeExpression attr.Expr ""
        if HasErrors d.2 then
          Outcome.fatal ("decode policy attr error: " ++ Diagnostics.Error d.2)
        else Outcome.returned d.1
      | none => Outcome.returned "")
    Outcome.returned
      { aclPolicy with
        ServicePrefixes :=
          aclPolicy.ServicePrefixes ++ [{ Policy := policy, Name := name, Intentions := "" }] }

/-- The `for` loop of `Parse` over `blockCfg.Blocks`: a switch on the block type
that calls the matching rule parser; a block of another type is passed over. -/
def parseBlocks : List Block → ACLPolicy → Outcome ACLPolicy
  | [], aclPolicy => .returned aclPolicy
  | block :: rest, aclPolicy =>
    if block.Typ = "node" then
      (parseNodeBlock block.body aclPolicy).bind (parseBlocks rest)
    else if block.Typ = "node_prefix" then
      (parseNodePrefixBlock block.body aclPolicy).bind (parseBlocks rest)
    else if block.Typ = "service" then
      (parseServiceBlock block.body aclPolicy).bind (parseBlocks rest)
    else if block.Typ = "service_prefix" then
      (parseServicePrefixBlock block.body aclPolicy).bind (parseBlocks rest)
    else parseBlocks rest aclPolicy

/-- Parse will parse file content into valid config. The loader `ParseHCLFile`
is a parameter. The named result `errs` is never assigned, so the last `return`
gives the document with a nil error list. -/
def Parse (ParseHCLFile : String → Option File × Diagnostics) (filename : String) :
    Outcome (Option ACLPolicy × List Diagnostic) :=
  let loaded := ParseHCLFile filename
  let parseDiags := loaded.2
  if HasErrors parseDiags then
    .returned (none, Errs parseDiags)
  else
    match loaded.1 with
    | none => .panicked "runtime error: invalid memory address or nil pointer dereference"
    | some file =>
      let bodyCont := (file.body.Content aclPolicySchema).1
      let confDiags := (file.body.Content aclPolicySchema).2
      if HasErrors confDiags then
        .returned (none, Errs confDiags)
      else
        match bodyCont.Blocks with
        | [] => .panicked "runtime error: index out of range [0] with length 0"
        | block0 :: _ =>
          let blockCfg := (block0.body.Content policyBlockSchema).1
          let blockDiags := (block0.body.Content policyBlockSchema).2
          if HasErrors blockDiags then
            .returned (none, Errs blockDiags)
          else
            match lookupAttr blockCfg.Attributes "acl" with
            | none => .panicked "runtime error: invalid memory address or nil pointer dereference"
            | some aclAttr =>
              let decoded := DecodeExpression aclAttr.Expr ""
              if HasErrors decoded.2 then
                .fatal ("decode acl attr error: " ++ Diagnostics.Error decoded.2)
              else
                (parseBlocks blockCfg.Blocks
                  { ACL := decoded.1, Nodes := [], NodePrefixes := [],
                    Services := [], ServicePrefixes := [] }).bind
                  (fun aclPolicy => .returned (some aclPolicy, []))

/-! ## Inputs: the two test inputs of `main_test.go` and further trees

The files `acl_policy1.hcl` and `acl_policy2.hcl` are not among the sources; their
trees are rebuilt from what `main_test.go` expects of them. The rules carry
their name as a `name` attribute, the only spelling the schemas accept. -/

/-- A range on one line of a file. -/
def lineRange (file : String) (line c1 c2 : Nat) : Range :=
  { Filename := file, Start := ⟨line, c1⟩, End := ⟨line, c2⟩ }

/-- An attribute `name = "value"` on a line of a file. -/
def textAttr (file : String) (line col : Nat) (name value : String) : Attribute :=
  { Name := name, Expr := .text value, NameRange := lineRange file line col (col + name.length) }

/-- A rule block without labels, written on one line, with `name` and `policy`. -/
def ruleBlock (file : String) (line : Nat) (typ name policy : String) : Block :=
  .mk typ []
    (.mk [textAttr file line 20 "name" name, textAttr file line 40 "policy" policy] []
      (lineRange file line 60 60))
    (lineRange file line 3 (3 + typ.length))

/-- A file whose root body holds the given blocks and no attribute. -/
def fileOf (name : String) (blocks : List Block) : File :=
  { body := .mk [] blocks (lineRange name 1 1 1) }

/-- A `policy` block without labels on line 1 with the given attributes and
child blocks. -/
def policyBlock (file : String) (attrs : List Attribute) (blocks : List Block) : Block :=
  .mk "policy" [] (.mk attrs blocks (lineRange file 1 8 8)) (lineRange file 1 1 7)

/-- A loader that reads every file as the given tree, without diagnostics. -/
def loadAs (file : File) : String → Option File × Diagnostics :=
  fun _ => (some file, [])

/-- The policy block of the test input `acl_policy1.hcl`: `acl = "read"` and one
rule block of each of the four kinds. -/
def policy1Block : Block :=
  policyBlock "acl_policy1.hcl" [textAttr "acl_policy1.hcl" 2 3 "acl" "read"]
    [ruleBlock "acl_policy1.hcl" 3 "node" "test" "write",
     ruleBlock "acl_policy1.hcl" 4 "node_prefix" "windows" "write",
     ruleBlock "acl_policy1.hcl" 5 "service" "Database" "write",
     ruleBlock "acl_policy1.hcl" 6 "service_prefix" "APIService" "read"]

/-- The tree of the test input `acl_policy1.hcl`. -/
def aclPolicy1 : File :=
  fileOf "acl_policy1.hcl" [policy1Block]

/-- The document `main_test.go` expects for `acl_policy1.hcl`. -/
def expected1 : ACLPolicy :=
  { ACL := "read"
    Nodes := [{ Name := "test", Policy := "write" }]
    NodePrefixes := [{ Name := "windows", Policy := "write" }]
    Services := [{ Name := "Database", Policy := "write", Intentions := "" }]
    ServicePrefixes := [{ Name := "APIService", Policy := "read", Intentions := "" }] }

/-- The unknown block `yolo` on line 3 of `acl_policy2.hcl`. -/
def yoloBlock : Block :=
  ruleBlock "acl_policy2.hcl" 3 "yolo" "x" "write"

/-- The misspelt block `node_preefix` on line 7 of `acl_policy2.hcl`. -/
def preefixBlock : Block :=
  ruleBlock "acl_policy2.hcl" 7 "node_preefix" "x" "write"

/-- The policy block of the test input `acl_policy2.hcl`: `acl = "read"`, the
unknown block `yolo`, a `node` rule, and the misspelt `node_preefix` block. -/
def policy2Block : Block :=
  policyBlock "acl_policy2.hcl" [textAttr "acl_policy2.hcl" 2 3 "acl" "read"]
    [yoloBlock, ruleBlock "acl_policy2.hcl" 5 "node" "test" "write", preefixBlock]

/-- The tree of the test input `acl_policy2.hcl`. -/
def aclPolicy2 : File :=
  fileOf "acl_policy2.hcl" [policy2Block]

/-- The two error texts `main_test.go` expects for `acl_policy2.hcl`. -/
def expectedErrs2 : List String :=
  ["acl_policy2.hcl:3,3-7: Unsupported block type; Blocks of type \"yolo\" are not expected here.",
   "acl_policy2.hcl:7,3-15: Unsupported block type; Blocks of type \"node_preefix\" are not expected here. Did you mean \"node_prefix\"?"]

/-- The loader on a file that cannot be read: no file and one error diagnostic
without a subject. -/
def loadUnreadable : String → Option File × Diagnostics :=
  fun filename =>
    (none, [{ Severity := DiagnosticSeverity.DiagError
              Summary := "Failed to read file"
              Detail := "The configuration file " ++ quote filename ++ " could not be read."
              Subject := none }])

/-- A block `polcy` at top level, a misspelling of `policy`. -/
def polcyBlock : Block :=
  .mk "polcy" [] (.mk [textAttr "stray.hcl" 2 3 "acl" "read"] [] (lineRange "stray.hcl" 1 7 7))
    (lineRange "stray.hcl" 1 1 6)

/-- A tree whose only top-level block is the misspelt `polcy`. -/
def strayFile : File :=
  fileOf "stray.hcl" [polcyBlock]

/-- The tree of an empty file: no attribute and no block. -/
def emptyFile : File :=
  fileOf "empty.hcl" []

/-- The block `policy { }` without an `acl` attribute, holding an ill-formed
rule block that is never looked at. -/
def noAclBlock : Block :=
  policyBlock "noacl.hcl" [] [.mk "node" [] (.mk [] [] (lineRange "noacl.hcl" 2 9 9))
    (lineRange "noacl.hcl" 2 3 7)]

/-- A tree whose policy block has no `acl` attribute. -/
def noAclFile : File :=
  fileOf "noacl.hcl" [noAclBlock]

/-- An expression that does not decode to text with a nil context, such as the
bare word in `acl = read`. -/
def bareWord (file : String) (line c1 c2 : Nat) : Expression :=
  .failing "Variables not allowed" "Variables may not be used here."
    (some (lineRange file line c1 c2))
    [{ Severity := DiagnosticSeverity.DiagError
       Summary := "Unsuitable value type"
       Detail := "Unsuitable value: value must be known"
       Subject := some (lineRange file line c1 c2) }]

/-- The attribute `acl = read`, whose expression does not decode to text. -/
def badAclAttr : Attribute :=
  { Name := "acl", Expr := bareWord "badacl.hcl" 2 9 13, NameRange := lineRange "badacl.hcl" 2 3 6 }

/-- The block `policy { acl = read }`. -/
def badAclBlock : Block :=
  policyBlock "badacl.hcl" [badAclAttr] []

/-- A tree whose `acl` attribute is present but does not decode to text. -/
def badAclFile : File :=
  fileOf "badacl.hcl" [badAclBlock]

/-- A `node` rule block that lacks the required `policy` attribute. -/
def noPolicyRule : Block :=
  .mk "node" [] (.mk [textAttr "badrule.hcl" 3 10 "name" "a"] [] (lineRange "badrule.hcl" 3 8 8))
    (lineRange "badrule.hcl" 3 3 7)

/-- A policy block with a well-formed `node` rule, a `node` rule without
`policy`, and another well-formed `node` rule. -/
def badRuleBlock : Block :=
  policyBlock "badrule.hcl" [textAttr "badrule.hcl" 2 3 "acl" "read"]
    [ruleBlock "badrule.hcl" 2 "node" "first" "read", noPolicyRule,
     ruleBlock "badrule.hcl" 4 "node" "b" "write"]

/-- A tree in which one recognised rule block has a malformed body. -/
def badRuleFile : File :=
  fileOf "badrule.hcl" [badRuleBlock]

/-- The attribute `intentions = "deny"` of a service rule. -/
def intentionsAttr : Attribute :=
  textAttr "intentions.hcl" 3 60 "intentions" "deny"

/-- A `service` rule block with `name`, `policy` and `intentions`. -/
def intentionsRule : Block :=
  .mk "service" []
    (.mk [textAttr "intentions.hcl" 3 20 "name" "db", textAttr "intentions.hcl" 3 40 "policy" "write",
          intentionsAttr] [] (lineRange "intentions.hcl" 3 11 11))
    (lineRange "intentions.hcl" 3 3 10)

/-- A policy block holding the service rule with `intentions`. -/
def intentionsBlock : Block :=
  policyBlock "intentions.hcl" [textAttr "intentions.hcl" 2 3 "acl" "read"] [intentionsRule]

/-- A tree with a service rule that carries an `intentions` attribute. -/
def intentionsFile : File :=
  fileOf "intentions.hcl" [intentionsBlock]

/-! ## Reference definitions for the statements -/

/-- The first block of the root body whose header keyword is `policy`. -/
def firstPolicyBlock (root : Body) : Option Block :=
  root.Blocks.find? (fun b => b.Typ == "policy")

/-- The child blocks of a body with a given header keyword, in source order. -/
def blocksOfType (typ : String) (body : Body) : List Block :=
  body.Blocks.filter (fun b => b.Typ == typ)

/-- The decoded text of the attribute `name` of a body, or the empty text when
the body has no such attribute. -/
def decodedText (body : Body) (name : String) : String :=
  match lookupAttr body.Attributes name with
  | some attr => (DecodeExpression attr.Expr "").1
  | none => ""

/-- The node rule a rule block describes: its decoded `name` and `policy`. -/
def nodeRuleOf (b : Block) : NodeRule :=
  { Name := decodedText b.body "name", Policy := decodedText b.body "policy" }

/-- The service rule a rule block describes: its decoded `name` and `policy`,
with empty intentions. -/
def serviceRuleOf (b : Block) : ServiceRule :=
  { Name := decodedText b.body "name", Policy := decodedText b.body "policy", Intentions := "" }

/-- The attribute `name` of a body is absent or decodes to a text. -/
def decodesIfPresent (body : Body) (name : String) : Prop :=
  ∀ attr, lookupAttr body.Attributes name = some attr → ∃ v, attr.Expr = Expression.text v

/-- The attribute `name` of a body is present and decodes to a text. -/
def decodesPresent (body : Body) (name : String) : Prop :=
  ∃ attr v, lookupAttr body.Attributes name = some attr ∧ attr.Expr = Expression.text v

/-- The rule-body schema that the switch of `Parse` applies to a block of a given
type, through the rule parser it calls; none for a type the switch passes over. -/
def ruleSchema (typ : String) : Option BodySchema :=
  if typ = "node" then some nodeRuleBlockSchema
  else if typ = "node_prefix" then some nodePrefixBlockSchema
  else if typ = "service" then some serviceRuleBlockSchema
  else if typ = "service_prefix" then some servicePrefixBlockSchema
  else none

/-- A rule block decodes: its body passes the schema of its type, `name` decodes
when present and `policy` is present and decodes. -/
def ruleDecodes (b : Block) : Prop :=
  ∀ s, ruleSchema b.Typ = some s →
    (b.body.Content s).2 = [] ∧ decodesIfPresent b.body "name" ∧ decodesPresent b.body "policy"

/-- The diagnostics of one of the three validation stages of `Parse`: those of
the loader, those of the top-level schema on the root body, or those of the
policy-body schema on the first `policy` block. -/
def stageDiagnostics (load : String → Option File × Diagnostics) (fn : String)
    (d : Diagnostics) : Prop :=
  d = (load fn).2
  ∨ (∃ file, (load fn).1 = some file ∧ d = (file.body.Content aclPolicySchema).2)
  ∨ (∃ file pb, (load fn).1 = some file ∧ firstPolicyBlock file.body = some pb
      ∧ d = (pb.body.Content policyBlockSchema).2)

/-- A body without its nested blocks: the same attributes and no block. -/
def withoutBlocks (b : Body) : Body :=
  .mk b.Attributes [] b.MissingItemRange

/-- The blocks of a root body without the `policy` blocks after the first one. -/
def keepFirstPolicyBlocks : List Block → List Block
  | [] => []
  | b :: rest =>
    if b.Typ = "policy" then b :: rest.filter (fun x => !(decide (x.Typ = "policy")))
    else b :: keepFirstPolicyBlocks rest

/-- The `policy` blocks of a root body after the first one. -/
def extraPolicyBlocks : List Block → List Block
  | [] => []
  | b :: rest =>
    if b.Typ = "policy" then rest.filter (fun x => decide (x.Typ = "policy"))
    else extraPolicyBlocks rest

/-- The tree that keeps only the first `policy` block of the root body, and
everything else of the root body as it is. -/
def keepFirstPolicy (file : File) : File :=
  { body := .mk file.body.Attributes (keepFirstPolicyBlocks file.body.Blocks)
      file.body.MissingItemRange }

/-- The total number of rules of a document. -/
def ruleCount (doc : ACLPolicy) : Nat :=
  doc.Nodes.length + doc.NodePrefixes.length + doc.Services.length + doc.ServicePrefixes.length

/-- A `node` rule block written with `policy = ""`. -/
def emptyPolicyRule : Block :=
  ruleBlock "emptypolicy.hcl" 3 "node" "a" ""

/-- A policy block holding the rule with the empty policy. -/
def emptyPolicyBlock : Block :=
  policyBlock "emptypolicy.hcl" [textAttr "emptypolicy.hcl" 2 3 "acl" "read"] [emptyPolicyRule]

/-- A tree with a rule block written with `policy = ""`. -/
def emptyPolicyFile : File :=
  fileOf "emptypolicy.hcl" [emptyPolicyBlock]

/-- The range of the label in `node "foo"` on line 3 of `label.hcl`. -/
def fooRange : Range :=
  lineRange "label.hcl" 3 8 13

/-- The rule block `node "foo" { policy = "write" }`, named by a label. -/
def labelRule : Block :=
  .mk "node" [("foo", fooRange)]
    (.mk [textAttr "label.hcl" 3 16 "policy" "write"] [] (lineRange "label.hcl" 3 14 14))
    (lineRange "label.hcl" 3 3 7)

/-- A policy block holding the rule block with a label. -/
def labelBlock : Block :=
  policyBlock "label.hcl" [textAttr "label.hcl" 2 3 "acl" "read"] [labelRule]

/-- A tree with a rule block whose header carries a label. -/
def labelFile : File :=
  fileOf "label.hcl" [labelBlock]

/-- The rule block `node "foo" { name = "bar" policy = "write" }`, with both a
label and a `name` attribute. -/
def labelNameRule : Block :=
  .mk "node" [("foo", fooRange)]
    (.mk [textAttr "label.hcl" 3 16 "name" "bar", textAttr "label.hcl" 3 30 "policy" "write"] []
      (lineRange "label.hcl" 3 14 14))
    (lineRange "label.hcl" 3 3 7)

/-- A tree with a rule block that has both a label and a `name` attribute. -/
def labelNameFile : File :=
  fileOf "label.hcl"
    [policyBlock "label.hcl" [textAttr "label.hcl" 2 3 "acl" "read"] [labelNameRule]]

/-- The block `node { policy = "read" }` on line 4, nested in a rule body. -/
def innerNode : Block :=
  .mk "node" [] (.mk [textAttr "nested.hcl" 4 12 "policy" "read"] []
    (lineRange "nested.hcl" 4 10 10)) (lineRange "nested.hcl" 4 5 9)

/-- The body `name = "a"  policy = "write"  node { policy = "read" }`: a rule body
with a nested `node` block. -/
def nestedBody : Body :=
  .mk [textAttr "nested.hcl" 3 20 "name" "a", textAttr "nested.hcl" 3 40 "policy" "write"]
    [innerNode] (lineRange "nested.hcl" 3 8 8)

/-- A `node` rule block with a `node` block nested in its body. -/
def nestedRule : Block :=
  .mk "node" [] nestedBody (lineRange "nested.hcl" 3 3 7)

/-- A policy block holding the rule with the nested block. -/
def nestedBlock : Block :=
  policyBlock "nested.hcl" [textAttr "nested.hcl" 2 3 "acl" "read"] [nestedRule]

/-- A tree with a `node` block inside a `node` block. -/
def nestedFile : File :=
  fileOf "nested.hcl" [nestedBlock]

/-- The same tree with the nested block taken out of the rule body. -/
def unnestedFile : File :=
  fileOf "nested.hcl"
    [policyBlock "nested.hcl" [textAttr "nested.hcl" 2 3 "acl" "read"]
      [.mk "node" [] (withoutBlocks nestedBody) (lineRange "nested.hcl" 3 3 7)]]

/-- A first policy block with one `node` rule. -/
def firstPolicy : Block :=
  policyBlock "two.hcl" [textAttr "two.hcl" 2 3 "acl" "read"]
    [ruleBlock "two.hcl" 3 "node" "test" "write"]

/-- A second policy block without label: no `acl`, an unknown block and a rule. -/
def secondPolicy : Block :=
  .mk "policy" []
    (.mk [] [ruleBlock "two.hcl" 7 "yolo" "x" "write", ruleBlock "two.hcl" 8 "service" "db" "read"]
      (lineRange "two.hcl" 6 8 8))
    (lineRange "two.hcl" 6 1 7)

/-- A tree with two policy blocks, neither with a label. -/
def twoPolicyFile : File :=
  fileOf "two.hcl" [firstPolicy, secondPolicy]

/-- A second policy block whose header carries a label: `policy "extra" { }`. -/
def labelledPolicy : Block :=
  .mk "policy" [("extra", lineRange "two.hcl" 6 8 15)]
    (.mk [] [] (lineRange "two.hcl" 6 16 16)) (lineRange "two.hcl" 6 1 7)

/-- A tree with two policy blocks, the second one with a label. -/
def labelledExtraFile : File :=
  fileOf "two.hcl" [firstPolicy, labelledPolicy]

/-- The document `main_test.go` lists as expected for `acl_policy2.hcl`, next to
its two errors. -/
def expected2 : ACLPolicy :=
  { ACL := "read"
    Nodes := [{ Name := "test", Policy := "write" }]
    NodePrefixes := []
    Services := []
    ServicePrefixes := [] }

/-- A block `polcy { }` on line 4 of `noacl.hcl`, a misspelling of `policy`. -/
def polcyAfter : Block :=
  .mk "polcy" [] (.mk [] [] (lineRange "noacl.hcl" 4 7 7)) (lineRange "noacl.hcl" 4 1 6)

/-- A tree whose first policy block has no `acl` attribute and whose root body
also holds the misspelt block `polcy`. -/
def noAclStrayFile : File :=
  fileOf "noacl.hcl" [noAclBlock, polcyAfter]

/-- The block `b` has a `policy` attribute, and it decodes to the text `policy`. -/
def policyFrom (policy : String) (b : Block) : Prop :=
  ∃ attr, lookupAttr b.body.Attributes "policy" = some attr
    ∧ attr.Expr = Expression.text policy

/-! ## Lemmas on diagnostics -/

theorem hasErrors_iff_errs_ne_nil (d : Diagnostics) : HasErrors d = true ↔ Errs d ≠ [] := by
  induction d with
  | nil => simp [HasErrors, Errs]
  | cons x xs ih =>
    by_cases hx : x.Severity = DiagnosticSeverity.DiagError
    · simp [HasErrors, Errs, hx]
    · have ih2 : (xs.any fun diag => decide (diag.Severity = DiagnosticSeverity.DiagError)) = true
          ↔ List.filter (fun diag => decide (diag.Severity = DiagnosticSeverity.DiagError)) xs ≠ [] := ih
      simp only [HasErrors, Errs, List.any_cons, List.filter_cons, hx, decide_False,
        Bool.false_or, Bool.false_eq_true, if_false]
      exact ih2

theorem errs_sublist (d : Diagnostics) : (Errs d).Sublist d :=
  List.filter_sublist d

theorem errs_severity (d : Diagnostics) :
    ∀ x ∈ Errs d, x.Severity = DiagnosticSeverity.DiagError := by
  intro x hx
  simpa using (List.mem_filter.mp hx).2

theorem errs_eq_self_of_all_errors (d : Diagnostics)
    (h : ∀ x ∈ d, x.Severity = DiagnosticSeverity.DiagError) : Errs d = d := by
  apply List.filter_eq_self.mpr
  intro x hx
  simp [h x hx]

theorem hasErrors_false_of_nil_iff (d : Diagnostics)
    (h : ∀ x ∈ d, x.Severity = DiagnosticSeverity.DiagError) :
    HasErrors d = false ↔ d = [] := by
  cases d with
  | nil => simp [HasErrors]
  | cons x xs =>
    have hx := h x (List.mem_cons_self x xs)
    simp [HasErrors, hx]

/-! ## Lemmas on schema application -/

theorem attrLoop_severity (b : Body) (as : List AttributeSchema) :
    ∀ x ∈ (attrLoop b as).2, x.Severity = DiagnosticSeverity.DiagError := by
  induction as with
  | nil => simp [attrLoop]
  | cons a rest ih =>
    intro x hx
    simp only [attrLoop] at hx
    split at hx
    · split at hx
      · rcases List.mem_cons.mp hx with h | h
        · rw [h]; rfl
        · exact ih x h
      · exact ih x hx
    · exact ih x hx

theorem blockLoop_severity (s : BodySchema) (bs : List Block) :
    ∀ x ∈ (blockLoop s bs).2, x.Severity = DiagnosticSeverity.DiagError := by
  induction bs with
  | nil => simp [blockLoop]
  | cons b rest ih =>
    intro x hx
    simp only [blockLoop] at hx
    split at hx
    · split at hx
      · rcases List.mem_cons.mp hx with h | h
        · rw [h]; rfl
        · exact ih x h
      · exact ih x hx
    · exact ih x hx

/-- Every diagnostic of `Content` has severity `DiagError`. -/
theorem content_severity (b : Body) (s : BodySchema) :
    ∀ x ∈ (b.Content s).2, x.Severity = DiagnosticSeverity.DiagError := by
  intro x hx
  simp only [Body.Content, Body.PartialContent, List.mem_append, List.mem_map] at hx
  rcases hx with ((h | h) | ⟨a, _, h⟩) | ⟨a, _, h⟩
  · exact attrLoop_severity b _ x h
  · exact blockLoop_severity s _ x h
  · rw [← h]; rfl
  · rw [← h]; rfl

theorem content_errs (b : Body) (s : BodySchema) : Errs (b.Content s).2 = (b.Content s).2 :=
  errs_eq_self_of_all_errors _ (content_severity b s)

theorem content_clean_iff (b : Body) (s : BodySchema) :
    HasErrors (b.Content s).2 = false ↔ (b.Content s).2 = [] :=
  hasErrors_false_of_nil_iff _ (content_severity b s)

theorem content_diags_eq (b : Body) (s : BodySchema) :
    (b.Content s).2 = (attrLoop b s.Attributes).2 ++ (blockLoop s b.Blocks).2
      ++ (b.Attributes.filter
          (fun attr => !(s.Attributes.any (fun attrS => attrS.Name == attr.Name)))).map
          (unsupportedArgument s (b.PartialContent s).1)
      ++ (b.Blocks.filter
          (fun block => !(s.Blocks.any (fun blockS => blockS.Typ == block.Typ)))).map
          (unsupportedBlock s) := rfl

theorem content_blocks_eq (b : Body) (s : BodySchema) :
    (b.Content s).1.Blocks = (blockLoop s b.Blocks).1 := rfl

theorem content_attrs_eq (b : Body) (s : BodySchema) :
    (b.Content s).1.Attributes = (attrLoop b s.Attributes).1 := rfl

theorem hasErrors_of_mem (d : Diagnostics) (x : Diagnostic) (hx : x ∈ d)
    (hs : x.Severity = DiagnosticSeverity.DiagError) : HasErrors d = true := by
  simp only [HasErrors, List.any_eq_true]
  exact ⟨x, hx, by simp [hs]⟩

/-- A block whose type the schema does not declare is reported by `Content`. -/
theorem content_unsupportedBlock_mem (b : Body) (s : BodySchema) (blk : Block)
    (hb : blk ∈ b.Blocks) (hu : s.Blocks.any (fun blockS => blockS.Typ == blk.Typ) = false) :
    unsupportedBlock s blk ∈ (b.Content s).2 := by
  rw [content_diags_eq]
  apply List.mem_append_right
  exact List.mem_map.mpr ⟨blk, List.mem_filter.mpr ⟨hb, by simp [hu]⟩, rfl⟩

/-- An attribute the schema does not declare is reported by `Content`. -/
theorem content_unsupportedArgument_mem (b : Body) (s : BodySchema) (attr : Attribute)
    (ha : attr ∈ b.Attributes)
    (hu : s.Attributes.any (fun attrS => attrS.Name == attr.Name) = false) :
    unsupportedArgument s (b.PartialContent s).1 attr ∈ (b.Content s).2 := by
  rw [content_diags_eq]
  apply List.mem_append_left
  apply List.mem_append_right
  exact List.mem_map.mpr ⟨attr, List.mem_filter.mpr ⟨ha, by simp [hu]⟩, rfl⟩

theorem attrLoop_missing_mem (b : Body) (as : List AttributeSchema) (a : AttributeSchema)
    (ha : a ∈ as) (hr : a.Required = true) (hn : lookupAttr b.Attributes a.Name = none) :
    missingArgument b a.Name ∈ (attrLoop b as).2 := by
  induction as with
  | nil => simp at ha
  | cons x rest ih =>
    rcases List.mem_cons.mp ha with h | h
    · subst h
      simp [attrLoop, hn, hr]
    · have := ih h
      simp only [attrLoop]
      split
      · split
        · exact List.mem_cons_of_mem _ this
        · exact this
      · exact this

/-- A required attribute that the body lacks is reported by `Content`. -/
theorem content_missing_mem (b : Body) (s : BodySchema) (a : AttributeSchema)
    (ha : a ∈ s.Attributes) (hr : a.Required = true)
    (hn : lookupAttr b.Attributes a.Name = none) :
    missingArgument b a.Name ∈ (b.Content s).2 := by
  rw [content_diags_eq]
  apply List.mem_append_left
  apply List.mem_append_left
  apply List.mem_append_left
  exact attrLoop_missing_mem b _ a ha hr hn

theorem attrLoop_clean_required (b : Body) (as : List AttributeSchema)
    (h : (attrLoop b as).2 = []) :
    ∀ a ∈ as, a.Required = true → ∃ attr, lookupAttr b.Attributes a.Name = some attr := by
  intro a ha hr
  cases hl : lookupAttr b.Attributes a.Name with
  | some attr => exact ⟨attr, rfl⟩
  | none =>
    have := attrLoop_missing_mem b as a ha hr hl
    rw [h] at this
    simp at this

theorem blockLoop_clean (s : BodySchema) (bs : List Block)
    (hw : ∀ blk ∈ bs, s.Blocks.any (fun blockS => blockS.Typ == blk.Typ) = true)
    (h : (blockLoop s bs).2 = []) :
    (blockLoop s bs).1 = bs ∧ ∀ blk ∈ bs, blk.Labels = [] := by
  induction bs with
  | nil => simp [blockLoop]
  | cons x rest ih =>
    have hx := hw x (List.mem_cons_self x rest)
    have hrest : ∀ blk ∈ rest, s.Blocks.any (fun blockS => blockS.Typ == blk.Typ) = true :=
      fun blk hb => hw blk (List.mem_cons_of_mem x hb)
    simp only [blockLoop, hx, if_true] at h ⊢
    cases hl : x.Labels with
    | cons l ls => simp [hl] at h
    | nil =>
      simp only [hl] at h ⊢
      obtain ⟨h1, h2⟩ := ih hrest h
      refine ⟨by rw [h1], ?_⟩
      intro blk hb
      rcases List.mem_cons.mp hb with e | e
      · rw [e]; exact hl
      · exact h2 blk e

/-- When `Content` reports nothing, every block of the body has a type the schema
declares and no label, every attribute is declared, every required attribute is
present, and the selected blocks are all the blocks of the body in order. -/
theorem content_clean (b : Body) (s : BodySchema) (h : (b.Content s).2 = []) :
    (b.Content s).1.Blocks = b.Blocks
    ∧ (∀ blk ∈ b.Blocks, s.Blocks.any (fun blockS => blockS.Typ == blk.Typ) = true
        ∧ blk.Labels = [])
    ∧ (∀ attr ∈ b.Attributes, s.Attributes.any (fun attrS => attrS.Name == attr.Name) = true)
    ∧ (∀ a ∈ s.Attributes, a.Required = true →
        ∃ attr, lookupAttr b.Attributes a.Name = some attr) := by
  have hw : ∀ blk ∈ b.Blocks, s.Blocks.any (fun blockS => blockS.Typ == blk.Typ) = true := by
    intro blk hb
    by_contra hc
    have hc2 : s.Blocks.any (fun blockS => blockS.Typ == blk.Typ) = false := by
      simpa using hc
    have := content_unsupportedBlock_mem b s blk hb hc2
    rw [h] at this
    simp at this
  have ha : ∀ attr ∈ b.Attributes,
      s.Attributes.any (fun attrS => attrS.Name == attr.Name) = true := by
    intro attr hb
    by_contra hc
    have hc2 : s.Attributes.any (fun attrS => attrS.Name == attr.Name) = false := by
      simpa using hc
    have := content_unsupportedArgument_mem b s attr hb hc2
    rw [h] at this
    simp at this
  rw [content_diags_eq] at h
  simp only [List.append_eq_nil] at h
  obtain ⟨⟨⟨h1, h2⟩, _⟩, _⟩ := h
  obtain ⟨e1, e2⟩ := blockLoop_clean s b.Blocks hw h2
  exact ⟨by rw [content_blocks_eq, e1], fun blk hb => ⟨hw blk hb, e2 blk hb⟩, ha,
    attrLoop_clean_required b _ h1⟩

theorem lookupAttr_name (attrs : List Attribute) (n : String) (attr : Attribute)
    (h : lookupAttr attrs n = some attr) : attr.Name = n := by
  have := List.find?_some h
  simpa using this

theorem attrLoop_lookup (b : Body) (as : List AttributeSchema) (n : String) :
    lookupAttr (attrLoop b as).1 n
      = if as.any (fun attrS => attrS.Name == n) then lookupAttr b.Attributes n else none := by
  induction as with
  | nil => simp [attrLoop, lookupAttr]
  | cons a rest ih =>
    simp only [attrLoop, List.any_cons]
    cases hl : lookupAttr b.Attributes a.Name with
    | none =>
      have e : lookupAttr (if a.Required = true then
          ((attrLoop b rest).1, missingArgument b a.Name :: (attrLoop b rest).2)
          else attrLoop b rest).1 n = lookupAttr (attrLoop b rest).1 n := by
        split <;> rfl
      simp only [e, ih]
      by_cases hn : a.Name = n
      · subst hn
        simp [hl]
      · simp [hn]
    | some attr =>
      have hname := lookupAttr_name _ _ _ hl
      by_cases hn : a.Name = n
      · subst hn
        simp [lookupAttr, List.find?_cons, hname] at hl ⊢
        exact hl.symm
      · have hn2 : (attr.Name == n) = false := by
          rw [hname]; simpa using hn
        simp only [lookupAttr, List.find?_cons] at ih ⊢
        simp [hn, hn2, ih]

/-- Looking an attribute up in the content of `Content` gives the attribute of
the body when the schema declares the name, and nothing otherwise. -/
theorem content_lookup (b : Body) (s : BodySchema) (n : String) :
    lookupAttr (b.Content s).1.Attributes n
      = if s.Attributes.any (fun attrS => attrS.Name == n) then lookupAttr b.Attributes n
        else none := by
  rw [content_attrs_eq]
  exact attrLoop_lookup b _ n

/-! ## Lemmas on the rule parsers -/

@[simp] theorem bind_returned {α β : Type} (v : α) (f : α → Outcome β) :
    (Outcome.returned v).bind f = f v := rfl

@[simp] theorem bind_fatal {α β : Type} (m : String) (f : α → Outcome β) :
    (Outcome.fatal m : Outcome α).bind f = Outcome.fatal m := rfl

@[simp] theorem bind_panicked {α β : Type} (m : String) (f : α → Outcome β) :
    (Outcome.panicked m : Outcome α).bind f = Outcome.panicked m := rfl

@[simp] theorem monadBind_eq {α β : Type} (x : Outcome α) (f : α → Outcome β) :
    (x >>= f) = x.bind f := rfl

theorem decode_hasErrors (e : Expression) (t : String) :
    HasErrors (DecodeExpression e t).2 = false ↔ ∃ v, e = Expression.text v := by
  cases e with
  | text v => simp [DecodeExpression, HasErrors]
  | failing s d r more => simp [DecodeExpression, HasErrors]

theorem nodeRule_lookup (body : Body) :
    lookupAttr (body.Content nodeRuleBlockSchema).1.Attributes "name"
        = lookupAttr body.Attributes "name"
    ∧ lookupAttr (body.Content nodeRuleBlockSchema).1.Attributes "policy"
        = lookupAttr body.Attributes "policy" := by
  constructor <;> rw [content_lookup] <;> rfl

theorem parseNodeBlock_returned (body : Body) (p q : ACLPolicy)
    (h : parseNodeBlock body p = Outcome.returned q) :
    (body.Content nodeRuleBlockSchema).2 = []
    ∧ decodesIfPresent body "name" ∧ decodesPresent body "policy"
    ∧ q = { p with Nodes := p.Nodes ++
          [{ Name := decodedText body "name", Policy := decodedText body "policy" }] } := by
  unfold parseNodeBlock at h
  simp only [] at h
  split at h
  · cases h
  · rename_i hc
    have hc2 : HasErrors (body.Content nodeRuleBlockSchema).2 = false := by simpa using hc
    have hclean := (content_clean_iff _ _).mp hc2
    obtain ⟨_, _, _, hreq⟩ := content_clean body nodeRuleBlockSchema hclean
    obtain ⟨pa, hpa⟩ := hreq ⟨"policy", true⟩ (by decide) rfl
    simp only [] at hpa
    rw [(nodeRule_lookup body).1, (nodeRule_lookup body).2, hpa] at h
    refine ⟨hclean, ?_⟩
    cases hn : lookupAttr body.Attributes "name" with
    | none =>
      rw [hn] at h
      cases he : pa.Expr with
      | failing s d r more => simp [he, DecodeExpression, HasErrors] at h
      | text v =>
        simp [he, DecodeExpression, HasErrors] at h
        refine ⟨?_, ⟨pa, v, hpa, he⟩, ?_⟩
        · intro attr ha; rw [hn] at ha; cases ha
        · simp [decodedText, hn, hpa, he, DecodeExpression, ← h]
    | some na =>
      rw [hn] at h
      cases hne : na.Expr with
      | failing s d r more => simp [hne, DecodeExpression, HasErrors] at h
      | text w =>
        cases he : pa.Expr with
        | failing s d r more => simp [hne, he, DecodeExpression, HasErrors] at h
        | text v =>
          simp [hne, he, DecodeExpression, HasErrors] at h
          refine ⟨?_, ⟨pa, v, hpa, he⟩, ?_⟩
          · intro attr ha; rw [hn] at ha; cases ha; exact ⟨w, hne⟩
          · simp [decodedText, hn, hpa, he, hne, DecodeExpression, ← h]

theorem parseNodeBlock_fatal (body : Body) (p : ACLPolicy)
    (h : HasErrors (body.Content nodeRuleBlockSchema).2 = true) :
    parseNodeBlock body p = Outcome.fatal
      ("block content error: " ++ Diagnostics.Error (body.Content nodeRuleBlockSchema).2) := by
  unfold parseNodeBlock
  simp only [h, if_true]

theorem parseNodeBlock_not_panicked (body : Body) (p : ACLPolicy) (m : String) :
    parseNodeBlock body p ≠ Outcome.panicked m := by
  unfold parseNodeBlock
  simp only []
  split
  · simp
  · cases lookupAttr (body.Content nodeRuleBlockSchema).1.Attributes "name" with
    | none =>
      cases lookupAttr (body.Content nodeRuleBlockSchema).1.Attributes "policy" with
      | none => simp
      | some pa => simp only [monadBind_eq, bind_returned]; split <;> simp
    | some na =>
      simp only [monadBind_eq]
      split
      · simp
      · cases lookupAttr (body.Content nodeRuleBlockSchema).1.Attributes "policy" with
        | none => simp
        | some pa => simp only [bind_returned]; split <;> simp

theorem parseNodeBlock_returns (body : Body) (p : ACLPolicy)
    (hc : (body.Content nodeRuleBlockSchema).2 = [])
    (hn : decodesIfPresent body "name") (hp : decodesPresent body "policy") :
    parseNodeBlock body p = Outcome.returned { p with Nodes := p.Nodes ++
          [{ Name := decodedText body "name", Policy := decodedText body "policy" }] } := by
  obtain ⟨pa, v, hpa, he⟩ := hp
  unfold parseNodeBlock
  simp only [hc, HasErrors, List.any_nil, Bool.false_eq_true, if_false]
  rw [(nodeRule_lookup body).1, (nodeRule_lookup body).2, hpa]
  cases hl : lookupAttr body.Attributes "name" with
  | none => simp [decodedText, hl, hpa, he, DecodeExpression]
  | some na =>
    obtain ⟨w, hw⟩ := hn na hl
    simp [decodedText, hl, hpa, he, hw, DecodeExpression]

theorem nodePrefix_lookup (body : Body) :
    lookupAttr (body.Content nodePrefixBlockSchema).1.Attributes "name"
        = lookupAttr body.Attributes "name"
    ∧ lookupAttr (body.Content nodePrefixBlockSchema).1.Attributes "policy"
        = lookupAttr body.Attributes "policy" := by
  constructor <;> rw [content_lookup] <;> rfl

theorem parseNodePrefixBlock_returned (body : Body) (p q : ACLPolicy)
    (h : parseNodePrefixBlock body p = Outcome.returned q) :
    (body.Content nodePrefixBlockSchema).2 = []
    ∧ decodesIfPresent body "name" ∧ decodesPresent body "policy"
    ∧ q = { p with NodePrefixes := p.NodePrefixes ++
          [{ Name := decodedText body "name", Policy := decodedText body "policy" }] } := by
  unfold parseNodePrefixBlock at h
  simp only [] at h
  split at h
  · cases h
  · rename_i hc
    have hc2 : HasErrors (body.Content nodePrefixBlockSchema).2 = false := by simpa using hc
    have hclean := (content_clean_iff _ _).mp hc2
    obtain ⟨_, _, _, hreq⟩ := content_clean body nodePrefixBlockSchema hclean
    obtain ⟨pa, hpa⟩ := hreq ⟨"policy", true⟩ (by decide) rfl
    simp only [] at hpa
    rw [(nodePrefix_lookup body).1, (nodePrefix_lookup body).2, hpa] at h
    refine ⟨hclean, ?_⟩
    cases hn : lookupAttr body.Attributes "name" with
    | none =>
      rw [hn] at h
      cases he : pa.Expr with
      | failing s d r more => simp [he, DecodeExpression, HasErrors] at h
      | text v =>
        simp [he, DecodeExpression, HasErrors] at h
        refine ⟨?_, ⟨pa, v, hpa, he⟩, ?_⟩
        · intro attr ha; rw [hn] at ha; cases ha
        · simp [decodedText, hn, hpa, he, DecodeExpression, ← h]
    | some na =>
      rw [hn] at h
      cases hne : na.Expr with
      | failing s d r more => simp [hne, DecodeExpression, HasErrors] at h
      | text w =>
        cases he : pa.Expr with
        | failing s d r more => simp [hne, he, DecodeExpression, HasErrors] at h
        | text v =>
          simp [hne, he, DecodeExpression, HasErrors] at h
          refine ⟨?_, ⟨pa, v, hpa, he⟩, ?_⟩
          · intro attr ha; rw [hn] at ha; cases ha; exact ⟨w, hne⟩
          · simp [decodedText, hn, hpa, he, hne, DecodeExpression, ← h]

theorem parseNodePrefixBlock_fatal (body : Body) (p : ACLPolicy)
    (h : HasErrors (body.Content nodePrefixBlockSchema).2 = true) :
    parseNodePrefixBlock body p = Outcome.fatal
      ("block content error: " ++ Diagnostics.Error (body.Content nodePrefixBlockSchema).2) := by
  unfold parseNodePrefixBlock
  simp only [h, if_true]

theorem parseNodePrefixBlock_not_panicked (body : Body) (p : ACLPolicy) (m : String) :
    parseNodePrefixBlock body p ≠ Outcome.panicked m := by
  unfold parseNodePrefixBlock
  simp only []
  split
  · simp
  · cases lookupAttr (body.Content nodePrefixBlockSchema).1.Attributes "name" with
    | none =>
      cases lookupAttr (body.Content nodePrefixBlockSchema).1.Attributes "policy" with
      | none => simp
      | some pa => simp only [monadBind_eq, bind_returned]; split <;> simp
    | some na =>
      simp only [monadBind_eq]
      split
      · simp
      · cases lookupAttr (body.Content nodePrefixBlockSchema).1.Attributes "policy" with
        | none => simp
        | some pa => simp only [bind_returned]; split <;> simp

theorem parseNodePrefixBlock_returns (body : Body) (p : ACLPolicy)
    (hc : (body.Content nodePrefixBlockSchema).2 = [])
    (hn : decodesIfPresent body "name") (hp : decodesPresent body "policy") :
    parseNodePrefixBlock body p = Outcome.returned { p with NodePrefixes := p.NodePrefixes ++
          [{ Name := decodedText body "name", Policy := decodedText body "policy" }] } := by
  obtain ⟨pa, v, hpa, he⟩ := hp
  unfold parseNodePrefixBlock
  simp only [hc, HasErrors, List.any_nil, Bool.false_eq_true, if_false]
  rw [(nodePrefix_lookup body).1, (nodePrefix_lookup body).2, hpa]
  cases hl : lookupAttr body.Attributes "name" with
  | none => simp [decodedText, hl, hpa, he, DecodeExpression]
  | some na =>
    obtain ⟨w, hw⟩ := hn na hl
    simp [decodedText, hl, hpa, he, hw, DecodeExpression]

theorem serviceRule_lookup (body : Body) :
    lookupAttr (body.Content serviceRuleBlockSchema).1.Attributes "name"
        = lookupAttr body.Attributes "name"
    ∧ lookupAttr (body.Content serviceRuleBlockSchema).1.Attributes "policy"
        = lookupAttr body.Attributes "policy" := by
  constructor <;> rw [content_lookup] <;> rfl

theorem parseServiceBlock_returned (body : Body) (p q : ACLPolicy)
    (h : parseServiceBlock body p = Outcome.returned q) :
    (body.Content serviceRuleBlockSchema).2 = []
    ∧ decodesIfPresent body "name" ∧ decodesPresent body "policy"
    ∧ q = { p with Services := p.Services ++
          [{ Name := decodedText body "name", Policy := decodedText body "policy",
             Intentions := "" }] } := by
  unfold parseServiceBlock at h
  simp only [] at h
  split at h
  · cases h
  · rename_i hc
    have hc2 : HasErrors (body.Content serviceRuleBlockSchema).2 = false := by simpa using hc
    have hclean := (content_clean_iff _ _).mp hc2
    obtain ⟨_, _, _, hreq⟩ := content_clean body serviceRuleBlockSchema hclean
    obtain ⟨pa, hpa⟩ := hreq ⟨"policy", true⟩ (by decide) rfl
    simp only [] at hpa
    rw [(serviceRule_lookup body).1, (serviceRule_lookup body).2, hpa] at h
    refine ⟨hclean, ?_⟩
    cases hn : lookupAttr body.Attributes "name" with
    | none =>
      rw [hn] at h
      cases he : pa.Expr with
      | failing s d r more => simp [he, DecodeExpression, HasErrors] at h
      | text v =>
        simp [he, DecodeExpression, HasErrors] at h
        refine ⟨?_, ⟨pa, v, hpa, he⟩, ?_⟩
        · intro attr ha; rw [hn] at ha; cases ha
        · simp [decodedText, hn, hpa, he, DecodeExpression, ← h]
    | some na =>
      rw [hn] at h
      cases hne : na.Expr with
      | failing s d r more => simp [hne, DecodeExpression, HasErrors] at h
      | text w =>
        cases he : pa.Expr with
        | failing s d r more => simp [hne, he, DecodeExpression, HasErrors] at h
        | text v =>
          simp [hne, he, DecodeExpression, HasErrors] at h
          refine ⟨?_, ⟨pa, v, hpa, he⟩, ?_⟩
          · intro attr ha; rw [hn] at ha; cases ha; exact ⟨w, hne⟩
          · simp [decodedText, hn, hpa, he, hne, DecodeExpression, ← h]

theorem parseServiceBlock_fatal (body : Body) (p : ACLPolicy)
    (h : HasErrors (body.Content serviceRuleBlockSchema).2 = true) :
    parseServiceBlock body p = Outcome.fatal
      ("block content error: " ++ Diagnostics.Error (body.Content serviceRuleBlockSchema).2) := by
  unfold parseServiceBlock
  simp only [h, if_true]

theorem parseServiceBlock_not_panicked (body : Body) (p : ACLPolicy) (m : String) :
    parseServiceBlock body p ≠ Outcome.panicked m := by
  unfold parseServiceBlock
  simp only []
  split
  · simp
  · cases lookupAttr (body.Content serviceRuleBlockSchema).1.Attributes "name" with
    | none =>
      cases lookupAttr (body.Content serviceRuleBlockSchema).1.Attributes "policy" with
      | none => simp
      | some pa => simp only [monadBind_eq, bind_returned]; split <;> simp
    | some na =>
      simp only [monadBind_eq]
      split
      · simp
      · cases lookupAttr (body.Content serviceRuleBlockSchema).1.Attributes "policy" with
        | none => simp
        | some pa => simp only [bind_returned]; split <;> simp

theorem parseServiceBlock_returns (body : Body) (p : ACLPolicy)
    (hc : (body.Content serviceRuleBlockSchema).2 = [])
    (hn : decodesIfPresent body "name") (hp : decodesPresent body "policy") :
    parseServiceBlock body p = Outcome.returned { p with Services := p.Services ++
          [{ Name := decodedText body "name", Policy := decodedText body "policy",
             Intentions := "" }] } := by
  obtain ⟨pa, v, hpa, he⟩ := hp
  unfold parseServiceBlock
  simp only [hc, HasErrors, List.any_nil, Bool.false_eq_true, if_false]
  rw [(serviceRule_lookup body).1, (serviceRule_lookup body).2, hpa]
  cases hl : lookupAttr body.Attributes "name" with
  | none => simp [decodedText, hl, hpa, he, DecodeExpression]
  | some na =>
    obtain ⟨w, hw⟩ := hn na hl
    simp [decodedText, hl, hpa, he, hw, DecodeExpression]

theorem servicePrefix_lookup (body : Body) :
    lookupAttr (body.Content servicePrefixBlockSchema).1.Attributes "name"
        = lookupAttr body.Attributes "name"
    ∧ lookupAttr (body.Content servicePrefixBlockSchema).1.Attributes "policy"
        = lookupAttr body.Attributes "policy" := by
  constructor <;> rw [content_lookup] <;> rfl

theorem parseServicePrefixBlock_returned (body : Body) (p q : ACLPolicy)
    (h : parseServicePrefixBlock body p = Outcome.returned q) :
    (body.Content servicePrefixBlockSchema).2 = []
    ∧ decodesIfPresent body "name" ∧ decodesPresent body "policy"
    ∧ q = { p with ServicePrefixes := p.ServicePrefixes ++
          [{ Name := decodedText body "name", Policy := decodedText body "policy",
             Intentions := "" }] } := by
  unfold parseServicePrefixBlock at h
  simp only [] at h
  split at h
  · cases h
  · rename_i hc
    have hc2 : HasErrors (body.Content servicePrefixBlockSchema).2 = false := by simpa using hc
    have hclean := (content_clean_iff _ _).mp hc2
    obtain ⟨_, _, _, hreq⟩ := content_clean body servicePrefixBlockSchema hclean
    obtain ⟨pa, hpa⟩ := hreq ⟨"policy", true⟩ (by decide) rfl
    simp only [] at hpa
    rw [(servicePrefix_lookup body).1, (servicePrefix_lookup body).2, hpa] at h
    refine ⟨hclean, ?_⟩
    cases hn : lookupAttr body.Attributes "name" with
    | none =>
      rw [hn] at h
      cases he : pa.Expr with
      | failing s d r more => simp [he, DecodeExpression, HasErrors] at h
      | text v =>
        simp [he, DecodeExpression, HasErrors] at h
        refine ⟨?_, ⟨pa, v, hpa, he⟩, ?_⟩
        · intro attr ha; rw [hn] at ha; cases ha
        · simp [decodedText, hn, hpa, he, DecodeExpression, ← h]
    | some na =>
      rw [hn] at h
      cases hne : na.Expr with
      | failing s d r more => simp [hne, DecodeExpression, HasErrors] at h
      | text w =>
        cases he : pa.Expr with
        | failing s d r more => simp [hne, he, DecodeExpression, HasErrors] at h
        | text v =>
          simp [hne, he, DecodeExpression, HasErrors] at h
          refine ⟨?_, ⟨pa, v, hpa, he⟩, ?_⟩
          · intro attr ha; rw [hn] at ha; cases ha; exact ⟨w, hne⟩
          · simp [decodedText, hn, hpa, he, hne, DecodeExpression, ← h]

theorem parseServicePrefixBlock_fatal (body : Body) (p : ACLPolicy)
    (h : HasErrors (body.Content servicePrefixBlockSchema).2 = true) :
    parseServicePrefixBlock body p = Outcome.fatal
      ("block content error: " ++ Diagnostics.Error (body.Content servicePrefixBlockSchema).2) := by
  unfold parseServicePrefixBlock
  simp only [h, if_true]

theorem parseServicePrefixBlock_not_panicked (body : Body) (p : ACLPolicy) (m : String) :
    parseServicePrefixBlock body p ≠ Outcome.panicked m := by
  unfold parseServicePrefixBlock
  simp only []
  split
  · simp
  · cases lookupAttr (body.Content servicePrefixBlockSchema).1.Attributes "name" with
    | none =>
      cases lookupAttr (body.Content servicePrefixBlockSchema).1.Attributes "policy" with
      | none => simp
      | some pa => simp only [monadBind_eq, bind_returned]; split <;> simp
    | some na =>
      simp only [monadBind_eq]
      split
      · simp
      · cases lookupAttr (body.Content servicePrefixBlockSchema).1.Attributes "policy" with
        | none => simp
        | some pa => simp only [bind_returned]; split <;> simp

theorem parseServicePrefixBlock_returns (body : Body) (p : ACLPolicy)
    (hc : (body.Content servicePrefixBlockSchema).2 = [])
    (hn : decodesIfPresent body "name") (hp : decodesPresent body "policy") :
    parseServicePrefixBlock body p = Outcome.returned { p with ServicePrefixes := p.ServicePrefixes ++
          [{ Name := decodedText body "name", Policy := decodedText body "policy",
             Intentions := "" }] } := by
  obtain ⟨pa, v, hpa, he⟩ := hp
  unfold parseServicePrefixBlock
  simp only [hc, HasErrors, List.any_nil, Bool.false_eq_true, if_false]
  rw [(servicePrefix_lookup body).1, (servicePrefix_lookup body).2, hpa]
  cases hl : lookupAttr body.Attributes "name" with
  | none => simp [decodedText, hl, hpa, he, DecodeExpression]
  | some na =>
    obtain ⟨w, hw⟩ := hn na hl
    simp [decodedText, hl, hpa, he, hw, DecodeExpression]

/-! ## Lemmas on the loop of `Parse` -/

/-- When the loop returns, each sequence has grown by the rules of the blocks of
its type, in order, the default ACL is unchanged, and every block decoded. -/
theorem parseBlocks_returned (bs : List Block) : ∀ (p q : ACLPolicy),
    parseBlocks bs p = Outcome.returned q →
    q.ACL = p.ACL
    ∧ q.Nodes = p.Nodes ++ (bs.filter (fun b => b.Typ == "node")).map nodeRuleOf
    ∧ q.NodePrefixes
        = p.NodePrefixes ++ (bs.filter (fun b => b.Typ == "node_prefix")).map nodeRuleOf
    ∧ q.Services = p.Services ++ (bs.filter (fun b => b.Typ == "service")).map serviceRuleOf
    ∧ q.ServicePrefixes
        = p.ServicePrefixes
          ++ (bs.filter (fun b => b.Typ == "service_prefix")).map serviceRuleOf
    ∧ ∀ b ∈ bs, ruleDecodes b := by
  induction bs with
  | nil =>
    intro p q h
    simp only [parseBlocks, Outcome.returned.injEq] at h
    subst h
    simp
  | cons b rest ih =>
    intro p q h
    unfold parseBlocks at h
    by_cases h1 : b.Typ = "node"
    · simp only [h1, if_true] at h
      cases hr : parseNodeBlock b.body p with
      | fatal m => rw [hr] at h; simp at h
      | panicked m => rw [hr] at h; simp at h
      | returned p' =>
        rw [hr] at h
        simp only [bind_returned] at h
        obtain ⟨hc, hn, hp, hq⟩ := parseNodeBlock_returned _ _ _ hr
        obtain ⟨i1, i2, i3, i4, i5, i6⟩ := ih p' q h
        subst hq
        refine ⟨i1, ?_, ?_, ?_, ?_, ?_⟩
        · simp [i2, List.filter_cons, h1, nodeRuleOf]
        · simp [i3, List.filter_cons, h1]
        · simp [i4, List.filter_cons, h1]
        · simp [i5, List.filter_cons, h1]
        · intro b' hb'
          rcases List.mem_cons.mp hb' with e | e
          · subst e
            intro s hs
            simp only [ruleSchema, h1, if_true, Option.some.injEq] at hs
            subst hs
            exact ⟨hc, hn, hp⟩
          · exact i6 b' e
    · by_cases h2 : b.Typ = "node_prefix"
      · simp only [h2, if_true] at h
        cases hr : parseNodePrefixBlock b.body p with
        | fatal m => rw [hr] at h; simp at h
        | panicked m => rw [hr] at h; simp at h
        | returned p' =>
          rw [hr] at h
          simp only [bind_returned] at h
          obtain ⟨hc, hn, hp, hq⟩ := parseNodePrefixBlock_returned _ _ _ hr
          obtain ⟨i1, i2, i3, i4, i5, i6⟩ := ih p' q h
          subst hq
          refine ⟨i1, ?_, ?_, ?_, ?_, ?_⟩
          · simp [i2, List.filter_cons, h2]
          · simp [i3, List.filter_cons, h2, nodeRuleOf]
          · simp [i4, List.filter_cons, h2]
          · simp [i5, List.filter_cons, h2]
          · intro b' hb'
            rcases List.mem_cons.mp hb' with e | e
            · subst e
              intro s hs
              simp [ruleSchema, h2] at hs
              subst hs
              exact ⟨hc, hn, hp⟩
            · exact i6 b' e
      · by_cases h3 : b.Typ = "service"
        · simp only [h3, if_true] at h
          cases hr : parseServiceBlock b.body p with
          | fatal m => rw [hr] at h; simp at h
          | panicked m => rw [hr] at h; simp at h
          | returned p' =>
            rw [hr] at h
            simp at h
            obtain ⟨hc, hn, hp, hq⟩ := parseServiceBlock_returned _ _ _ hr
            obtain ⟨i1, i2, i3, i4, i5, i6⟩ := ih p' q h
            subst hq
            refine ⟨i1, ?_, ?_, ?_, ?_, ?_⟩
            · simp [i2, List.filter_cons, h3]
            · simp [i3, List.filter_cons, h3]
            · simp [i4, List.filter_cons, h3, serviceRuleOf]
            · simp [i5, List.filter_cons, h3]
            · intro b' hb'
              rcases List.mem_cons.mp hb' with e | e
              · subst e
                intro s hs
                simp [ruleSchema, h3] at hs
                subst hs
                exact ⟨hc, hn, hp⟩
              · exact i6 b' e
        · by_cases h4 : b.Typ = "service_prefix"
          · simp only [h4, if_true] at h
            cases hr : parseServicePrefixBlock b.body p with
            | fatal m => rw [hr] at h; simp at h
            | panicked m => rw [hr] at h; simp at h
            | returned p' =>
              rw [hr] at h
              simp at h
              obtain ⟨hc, hn, hp, hq⟩ := parseServicePrefixBlock_returned _ _ _ hr
              obtain ⟨i1, i2, i3, i4, i5, i6⟩ := ih p' q h
              subst hq
              refine ⟨i1, ?_, ?_, ?_, ?_, ?_⟩
              · simp [i2, List.filter_cons, h4]
              · simp [i3, List.filter_cons, h4]
              · simp [i4, List.filter_cons, h4]
              · simp [i5, List.filter_cons, h4, serviceRuleOf]
              · intro b' hb'
                rcases List.mem_cons.mp hb' with e | e
                · subst e
                  intro s hs
                  simp [ruleSchema, h4] at hs
                  subst hs
                  exact ⟨hc, hn, hp⟩
                · exact i6 b' e
          · simp only [h1, h2, h3, h4, if_false] at h
            obtain ⟨i1, i2, i3, i4, i5, i6⟩ := ih p q h
            refine ⟨i1, ?_, ?_, ?_, ?_, ?_⟩
            · simp [i2, List.filter_cons, h1]
            · simp [i3, List.filter_cons, h2]
            · simp [i4, List.filter_cons, h3]
            · simp [i5, List.filter_cons, h4]
            · intro b' hb'
              rcases List.mem_cons.mp hb' with e | e
              · subst e
                intro s hs
                simp [ruleSchema, h1, h2, h3, h4] at hs
              · exact i6 b' e

theorem parseBlocks_not_panicked (bs : List Block) : ∀ (p : ACLPolicy) (m : String),
    parseBlocks bs p ≠ Outcome.panicked m := by
  induction bs with
  | nil => intro p m; simp [parseBlocks]
  | cons b rest ih =>
    intro p m
    unfold parseBlocks
    split
    · cases hr : parseNodeBlock b.body p with
      | fatal m' => simp
      | panicked m' => exact absurd hr (parseNodeBlock_not_panicked _ _ _)
      | returned p' => simpa using ih p' m
    · split
      · cases hr : parseNodePrefixBlock b.body p with
        | fatal m' => simp
        | panicked m' => exact absurd hr (parseNodePrefixBlock_not_panicked _ _ _)
        | returned p' => simpa using ih p' m
      · split
        · cases hr : parseServiceBlock b.body p with
          | fatal m' => simp
          | panicked m' => exact absurd hr (parseServiceBlock_not_panicked _ _ _)
          | returned p' => simpa using ih p' m
        · split
          · cases hr : parseServicePrefixBlock b.body p with
            | fatal m' => simp
            | panicked m' => exact absurd hr (parseServicePrefixBlock_not_panicked _ _ _)
            | returned p' => simpa using ih p' m
          · exact ih p m

/-- When some block of the loop does not decode, the loop ends in `log.Fatalf`. -/
theorem parseBlocks_fatal (bs : List Block) (p : ACLPolicy) (b : Block) (hb : b ∈ bs)
    (hbad : ¬ ruleDecodes b) : ∃ m, parseBlocks bs p = Outcome.fatal m := by
  cases hr : parseBlocks bs p with
  | fatal m => exact ⟨m, rfl⟩
  | panicked m => exact absurd hr (parseBlocks_not_panicked _ _ _)
  | returned q =>
    have := (parseBlocks_returned bs p q hr).2.2.2.2.2 b hb
    exact absurd this hbad

/-- When every block decodes, the loop returns a document. -/
theorem parseBlocks_returns (bs : List Block) : ∀ (p : ACLPolicy),
    (∀ b ∈ bs, ruleDecodes b) → ∃ q, parseBlocks bs p = Outcome.returned q := by
  induction bs with
  | nil => intro p _; exact ⟨p, rfl⟩
  | cons b rest ih =>
    intro p h
    have hb := h b (List.mem_cons_self b rest)
    have hrest : ∀ b' ∈ rest, ruleDecodes b' := fun b' hb' => h b' (List.mem_cons_of_mem b hb')
    unfold parseBlocks
    by_cases h1 : b.Typ = "node"
    · obtain ⟨hc, hn, hp⟩ := hb nodeRuleBlockSchema (by rw [h1]; decide)
      simp only [h1, if_true, parseNodeBlock_returns b.body p hc hn hp, bind_returned]
      exact ih _ hrest
    · by_cases h2 : b.Typ = "node_prefix"
      · obtain ⟨hc, hn, hp⟩ := hb nodePrefixBlockSchema (by rw [h2]; decide)
        simp only [h1, h2, if_true, if_false, parseNodePrefixBlock_returns b.body p hc hn hp,
          bind_returned]
        exact ih _ hrest
      · by_cases h3 : b.Typ = "service"
        · obtain ⟨hc, hn, hp⟩ := hb serviceRuleBlockSchema (by rw [h3]; decide)
          simp only [h1, h2, h3, if_true, if_false,
            parseServiceBlock_returns b.body p hc hn hp, bind_returned]
          exact ih _ hrest
        · by_cases h4 : b.Typ = "service_prefix"
          · obtain ⟨hc, hn, hp⟩ := hb servicePrefixBlockSchema (by rw [h4]; decide)
            simp only [h1, h2, h3, h4, if_true, if_false,
              parseServicePrefixBlock_returns b.body p hc hn hp, bind_returned]
            exact ih _ hrest
          · simp only [h1, h2, h3, h4, if_false]
            exact ih _ hrest

/-! ## Lemmas on `Parse` -/

/-- When the top-level schema reports nothing, the first selected block is the
first `policy` block of the root body. -/
theorem root_first (root : Body) (pb : Block)
    (hroot : HasErrors (root.Content aclPolicySchema).2 = false)
    (hpb : firstPolicyBlock root = some pb) :
    ∃ rest, (root.Content aclPolicySchema).1.Blocks = pb :: rest := by
  obtain ⟨hb, hw, _, _⟩ := content_clean root aclPolicySchema ((content_clean_iff _ _).mp hroot)
  rw [hb]
  unfold firstPolicyBlock at hpb
  cases hl : root.Blocks with
  | nil => rw [hl] at hpb; simp at hpb
  | cons x rest =>
    have hx := (hw x (by rw [hl]; exact List.mem_cons_self x rest)).1
    have hx1 : "policy" = x.Typ := by simpa [aclPolicySchema] using hx
    have hx2 : (x.Typ == "policy") = true := by rw [← hx1]; decide
    rw [hl, List.find?_cons, hx2] at hpb
    cases hpb
    exact ⟨rest, rfl⟩

theorem root_first_conv (root : Body) (b0 : Block) (rest : List Block)
    (hroot : HasErrors (root.Content aclPolicySchema).2 = false)
    (hb0 : (root.Content aclPolicySchema).1.Blocks = b0 :: rest) :
    firstPolicyBlock root = some b0 := by
  obtain ⟨hb, hw, _, _⟩ := content_clean root aclPolicySchema ((content_clean_iff _ _).mp hroot)
  rw [hb] at hb0
  have hx := (hw b0 (by rw [hb0]; exact List.mem_cons_self b0 rest)).1
  have hx1 : "policy" = b0.Typ := by simpa [aclPolicySchema] using hx
  have hx2 : (b0.Typ == "policy") = true := by rw [← hx1]; decide
  unfold firstPolicyBlock
  rw [hb0, List.find?_cons, hx2]

theorem parse_stage1 (load : String → Option File × Diagnostics) (fn : String)
    (h : HasErrors (load fn).2 = true) :
    Parse load fn = Outcome.returned (none, Errs (load fn).2) := by
  unfold Parse
  simp only [h, if_true]

theorem parse_stage2 (load : String → Option File × Diagnostics) (fn : String) (file : File)
    (hfile : (load fn).1 = some file) (hload : HasErrors (load fn).2 = false)
    (h : HasErrors (file.body.Content aclPolicySchema).2 = true) :
    Parse load fn = Outcome.returned (none, Errs (file.body.Content aclPolicySchema).2) := by
  unfold Parse
  simp only [hload, hfile, h, if_true, Bool.false_eq_true, if_false]

theorem parse_stage3 (load : String → Option File × Diagnostics) (fn : String) (file : File)
    (pb : Block)
    (hfile : (load fn).1 = some file) (hload : HasErrors (load fn).2 = false)
    (hroot : HasErrors (file.body.Content aclPolicySchema).2 = false)
    (hpb : firstPolicyBlock file.body = some pb)
    (h : HasErrors (pb.body.Content policyBlockSchema).2 = true) :
    Parse load fn = Outcome.returned (none, Errs (pb.body.Content policyBlockSchema).2) := by
  obtain ⟨rest, hb⟩ := root_first file.body pb hroot hpb
  unfold Parse
  simp only [hload, hfile, hroot, hb, h, if_true, Bool.false_eq_true, if_false]

theorem policy_lookup (body : Body) :
    lookupAttr (body.Content policyBlockSchema).1.Attributes "acl"
      = lookupAttr body.Attributes "acl" := by
  rw [content_lookup]; rfl

/-- After the three validation stages, `Parse` decodes `acl` and runs the loop
over the child blocks of the first policy block. -/
theorem parse_decode (load : String → Option File × Diagnostics) (fn : String) (file : File)
    (pb : Block) (aclAttr : Attribute)
    (hfile : (load fn).1 = some file) (hload : HasErrors (load fn).2 = false)
    (hroot : HasErrors (file.body.Content aclPolicySchema).2 = false)
    (hpb : firstPolicyBlock file.body = some pb)
    (hpol : HasErrors (pb.body.Content policyBlockSchema).2 = false)
    (hacl : lookupAttr pb.body.Attributes "acl" = some aclAttr) :
    Parse load fn =
      if HasErrors (DecodeExpression aclAttr.Expr "").2 = true then
        Outcome.fatal
          ("decode acl attr error: " ++ Diagnostics.Error (DecodeExpression aclAttr.Expr "").2)
      else
        (parseBlocks pb.body.Blocks
          { ACL := (DecodeExpression aclAttr.Expr "").1, Nodes := [], NodePrefixes := [],
            Services := [], ServicePrefixes := [] }).bind
          (fun aclPolicy => Outcome.returned (some aclPolicy, [])) := by
  obtain ⟨rest, hb⟩ := root_first file.body pb hroot hpb
  obtain ⟨hblocks, _, _, _⟩ :=
    content_clean pb.body policyBlockSchema ((content_clean_iff _ _).mp hpol)
  unfold Parse
  simp only [hload, hfile, hroot, hb, hpol, Bool.false_eq_true, if_false, policy_lookup, hacl,
    hblocks]

/-- What a returned document implies: every stage passed, `acl` decoded, the loop
returned the document, and the error list is nil. -/
theorem parse_returned_some (load : String → Option File × Diagnostics) (fn : String)
    (doc : ACLPolicy) (errs : List Diagnostic)
    (h : Parse load fn = Outcome.returned (some doc, errs)) :
    ∃ file pb aclAttr v,
      (load fn).1 = some file ∧ HasErrors (load fn).2 = false
      ∧ HasErrors (file.body.Content aclPolicySchema).2 = false
      ∧ firstPolicyBlock file.body = some pb
      ∧ HasErrors (pb.body.Content policyBlockSchema).2 = false
      ∧ lookupAttr pb.body.Attributes "acl" = some aclAttr
      ∧ aclAttr.Expr = Expression.text v
      ∧ parseBlocks pb.body.Blocks
          { ACL := v, Nodes := [], NodePrefixes := [], Services := [], ServicePrefixes := [] }
          = Outcome.returned doc
      ∧ errs = [] := by
  cases hl : HasErrors (load fn).2 with
  | true => rw [parse_stage1 load fn hl] at h; simp at h
  | false =>
    cases hf : (load fn).1 with
    | none => unfold Parse at h; simp [hl, hf] at h
    | some file =>
      cases hr : HasErrors (file.body.Content aclPolicySchema).2 with
      | true => rw [parse_stage2 load fn file hf hl hr] at h; simp at h
      | false =>
        cases hbs : (file.body.Content aclPolicySchema).1.Blocks with
        | nil => unfold Parse at h; simp [hl, hf, hr, hbs] at h
        | cons b0 rest =>
          have hpb := root_first_conv file.body b0 rest hr hbs
          cases hp : HasErrors (b0.body.Content policyBlockSchema).2 with
          | true => rw [parse_stage3 load fn file b0 hf hl hr hpb hp] at h; simp at h
          | false =>
            obtain ⟨_, _, _, hreq⟩ :=
              content_clean b0.body policyBlockSchema ((content_clean_iff _ _).mp hp)
            obtain ⟨a, ha⟩ := hreq ⟨"acl", true⟩ (by decide) rfl
            simp only [] at ha
            rw [parse_decode load fn file b0 a hf hl hr hpb hp ha] at h
            cases he : a.Expr with
            | failing s d r more => simp [he, DecodeExpression, HasErrors] at h
            | text v =>
              simp only [he, DecodeExpression, HasErrors, List.any_nil, Bool.false_eq_true,
                if_false] at h
              cases hq : parseBlocks b0.body.Blocks
                  { ACL := v, Nodes := [], NodePrefixes := [], Services := [],
                    ServicePrefixes := [] } with
              | fatal m => rw [hq] at h; simp at h
              | panicked m => rw [hq] at h; simp at h
              | returned q =>
                rw [hq] at h
                simp only [bind_returned, Outcome.returned.injEq, Prod.mk.injEq,
                  Option.some.injEq] at h
                refine ⟨file, b0, a, v, rfl, rfl, hr, hpb, hp, ha, he, ?_, h.2.symm⟩
                rw [← h.1]
                exact hq

/-- When the three validation stages report no error, `acl` decodes and every
child block of the first policy block decodes, `Parse` returns a document and
no error. -/
theorem parse_returns_document (load : String → Option File × Diagnostics) (fn : String)
    (file : File) (pb : Block) (aclAttr : Attribute)
    (hfile : (load fn).1 = some file) (hload : HasErrors (load fn).2 = false)
    (hroot : HasErrors (file.body.Content aclPolicySchema).2 = false)
    (hpb : firstPolicyBlock file.body = some pb)
    (hpol : HasErrors (pb.body.Content policyBlockSchema).2 = false)
    (hacl : lookupAttr pb.body.Attributes "acl" = some aclAttr)
    (hdec : HasErrors (DecodeExpression aclAttr.Expr "").2 = false)
    (hrules : ∀ b ∈ pb.body.Blocks, ruleDecodes b) :
    ∃ doc, Parse load fn = Outcome.returned (some doc, []) := by
  rw [parse_decode load fn file pb aclAttr hfile hload hroot hpb hpol hacl]
  simp only [hdec, Bool.false_eq_true, if_false]
  obtain ⟨q, hq⟩ := parseBlocks_returns pb.body.Blocks
    { ACL := (DecodeExpression aclAttr.Expr "").1, Nodes := [], NodePrefixes := [],
      Services := [], ServicePrefixes := [] } hrules
  exact ⟨q, by rw [hq]; rfl⟩

/-- What an absent document implies: one of the three validation stages reported
an error, and the errors returned are those of that stage. -/
theorem parse_returned_none (load : String → Option File × Diagnostics) (fn : String)
    (errs : List Diagnostic)
    (h : Parse load fn = Outcome.returned (none, errs)) :
    ∃ d : Diagnostics, stageDiagnostics load fn d ∧ HasErrors d = true ∧ errs = Errs d := by
  cases hl : HasErrors (load fn).2 with
  | true =>
    rw [parse_stage1 load fn hl] at h
    simp only [Outcome.returned.injEq, Prod.mk.injEq, true_and] at h
    exact ⟨_, Or.inl rfl, hl, h.symm⟩
  | false =>
    cases hf : (load fn).1 with
    | none => unfold Parse at h; simp [hl, hf] at h
    | some file =>
      cases hr : HasErrors (file.body.Content aclPolicySchema).2 with
      | true =>
        rw [parse_stage2 load fn file hf hl hr] at h
        simp only [Outcome.returned.injEq, Prod.mk.injEq, true_and] at h
        exact ⟨_, Or.inr (Or.inl ⟨file, hf, rfl⟩), hr, h.symm⟩
      | false =>
        cases hbs : (file.body.Content aclPolicySchema).1.Blocks with
        | nil => unfold Parse at h; simp [hl, hf, hr, hbs] at h
        | cons b0 rest =>
          have hpb := root_first_conv file.body b0 rest hr hbs
          cases hp : HasErrors (b0.body.Content policyBlockSchema).2 with
          | true =>
            rw [parse_stage3 load fn file b0 hf hl hr hpb hp] at h
            simp only [Outcome.returned.injEq, Prod.mk.injEq, true_and] at h
            exact ⟨_, Or.inr (Or.inr ⟨file, b0, hf, hpb, rfl⟩), hp, h.symm⟩
          | false =>
            obtain ⟨_, _, _, hreq⟩ :=
              content_clean b0.body policyBlockSchema ((content_clean_iff _ _).mp hp)
            obtain ⟨a, ha⟩ := hreq ⟨"acl", true⟩ (by decide) rfl
            simp only [] at ha
            rw [parse_decode load fn file b0 a hf hl hr hpb hp ha] at h
            split at h
            · cases h
            · cases hq : parseBlocks b0.body.Blocks
                  { ACL := (DecodeExpression a.Expr "").1, Nodes := [], NodePrefixes := [],
                    Services := [], ServicePrefixes := [] } with
              | fatal m => rw [hq] at h; simp at h
              | panicked m => rw [hq] at h; simp at h
              | returned q => rw [hq] at h; simp at h

/-- After the three validation stages and the decoding of `acl`, a rule block
that does not decode ends `Parse` in `log.Fatalf`. -/
theorem parse_fatal_of_bad_rule (load : String → Option File × Diagnostics) (fn : String)
    (file : File) (pb : Block) (aclAttr : Attribute) (blk : Block)
    (hfile : (load fn).1 = some file) (hload : HasErrors (load fn).2 = false)
    (hroot : HasErrors (file.body.Content aclPolicySchema).2 = false)
    (hpb : firstPolicyBlock file.body = some pb)
    (hpol : HasErrors (pb.body.Content policyBlockSchema).2 = false)
    (hacl : lookupAttr pb.body.Attributes "acl" = some aclAttr)
    (hdec : HasErrors (DecodeExpression aclAttr.Expr "").2 = false)
    (hblk : blk ∈ pb.body.Blocks) (hbad : ¬ ruleDecodes blk) :
    ∃ m, Parse load fn = Outcome.fatal m := by
  rw [parse_decode load fn file pb aclAttr hfile hload hroot hpb hpol hacl]
  simp only [hdec, Bool.false_eq_true, if_false]
  obtain ⟨m, hm⟩ := parseBlocks_fatal pb.body.Blocks
    { ACL := (DecodeExpression aclAttr.Expr "").1, Nodes := [], NodePrefixes := [],
      Services := [], ServicePrefixes := [] } blk hblk hbad
  exact ⟨m, by rw [hm]; rfl⟩

theorem not_ruleDecodes_of_errors (blk : Block) (s : BodySchema)
    (hs : ruleSchema blk.Typ = some s) (hbad : HasErrors (blk.body.Content s).2 = true) :
    ¬ ruleDecodes blk := by
  intro hd
  have := (hd s hs).1
  rw [this] at hbad
  simp [HasErrors] at hbad

theorem ruleTypes_of_wanted (b : Block)
    (h : policyBlockSchema.Blocks.any (fun blockS => blockS.Typ == b.Typ) = true) :
    b.Typ ∈ ["node", "node_prefix", "service", "service_prefix"] := by
  simp only [policyBlockSchema, List.any_cons, List.any_nil, Bool.or_false, Bool.or_eq_true,
    beq_iff_eq] at h
  simp only [List.mem_cons, List.mem_singleton, List.not_mem_nil, or_false]
  rcases h with h | h | h | h
  · exact Or.inl h.symm
  · exact Or.inr (Or.inl h.symm)
  · exact Or.inr (Or.inr (Or.inl h.symm))
  · exact Or.inr (Or.inr (Or.inr h.symm))

theorem ruleSchema_of_ruleType (t : String)
    (h : t ∈ ["node", "node_prefix", "service", "service_prefix"]) :
    ∃ s, ruleSchema t = some s := by
  simp only [List.mem_cons, List.mem_singleton, List.not_mem_nil, or_false] at h
  rcases h with h | h | h | h <;> subst h
  · exact ⟨nodeRuleBlockSchema, by decide⟩
  · exact ⟨nodePrefixBlockSchema, by decide⟩
  · exact ⟨serviceRuleBlockSchema, by decide⟩
  · exact ⟨servicePrefixBlockSchema, by decide⟩

theorem wanted_false_of_not_ruleType (b : Block)
    (h : b.Typ ∉ ["node", "node_prefix", "service", "service_prefix"]) :
    policyBlockSchema.Blocks.any (fun blockS => blockS.Typ == b.Typ) = false := by
  cases hc : policyBlockSchema.Blocks.any (fun blockS => blockS.Typ == b.Typ) with
  | false => rfl
  | true => exact absurd (ruleTypes_of_wanted b hc) h

/-! ## The claims -/

set_option maxRecDepth 100000

/-- C1: whenever `Parse` returns a document, the tree has a first `policy` block
whose `acl` attribute decoded to the document's `ACL`, and each of `Nodes`,
`NodePrefixes`, `Services` and `ServicePrefixes` is the list of the child blocks of
that policy block with the keyword `node`, `node_prefix`, `service`,
`service_prefix` respectively, in source order, each mapped to the rule with its
decoded `name` (empty when absent) and its decoded `policy`; every child block
has one of the four keywords, so none is dropped, and duplicates are kept. -/
theorem C1_rule_sequences_in_source_order (load : String → Option File × Diagnostics)
    (fn : String) (doc : ACLPolicy) (errs : List Diagnostic)
    (h : Parse load fn = Outcome.returned (some doc, errs)) :
    ∃ file pb, (load fn).1 = some file ∧ firstPolicyBlock file.body = some pb
      ∧ decodesPresent pb.body "acl" ∧ doc.ACL = decodedText pb.body "acl"
      ∧ doc.Nodes = (blocksOfType "node" pb.body).map nodeRuleOf
      ∧ doc.NodePrefixes = (blocksOfType "node_prefix" pb.body).map nodeRuleOf
      ∧ doc.Services = (blocksOfType "service" pb.body).map serviceRuleOf
      ∧ doc.ServicePrefixes = (blocksOfType "service_prefix" pb.body).map serviceRuleOf
      ∧ ∀ b ∈ pb.body.Blocks,
          b.Typ ∈ ["node", "node_prefix", "service", "service_prefix"]
          ∧ decodesIfPresent b.body "name" ∧ decodesPresent b.body "policy" := by
  obtain ⟨file, pb, a, v, hf, _, _, hpb, hp, ha, he, hq, _⟩ := parse_returned_some load fn doc errs h
  obtain ⟨i1, i2, i3, i4, i5, i6⟩ := parseBlocks_returned _ _ _ hq
  obtain ⟨_, hw, _, _⟩ := content_clean pb.body policyBlockSchema ((content_clean_iff _ _).mp hp)
  refine ⟨file, pb, hf, hpb, ⟨a, v, ha, he⟩, ?_, ?_, ?_, ?_, ?_, ?_⟩
  · simp [i1, decodedText, ha, he, DecodeExpression]
  · simpa [blocksOfType] using i2
  · simpa [blocksOfType] using i3
  · simpa [blocksOfType] using i4
  · simpa [blocksOfType] using i5
  · intro b hb
    have ht := ruleTypes_of_wanted b (hw b hb).1
    obtain ⟨s, hs⟩ := ruleSchema_of_ruleType b.Typ ht
    exact ⟨ht, (i6 b hb s hs).2⟩

/-- C1, witness: on the tree of `acl_policy1.hcl`, `Parse` returns the document the
test expects, and the theorem applies to it. -/
theorem C1_witness :
    Parse (loadAs aclPolicy1) "acl_policy1.hcl" = Outcome.returned (some expected1, [])
    ∧ ∃ file pb, (loadAs aclPolicy1 "acl_policy1.hcl").1 = some file
      ∧ firstPolicyBlock file.body = some pb
      ∧ decodesPresent pb.body "acl" ∧ expected1.ACL = decodedText pb.body "acl"
      ∧ expected1.Nodes = (blocksOfType "node" pb.body).map nodeRuleOf
      ∧ expected1.NodePrefixes = (blocksOfType "node_prefix" pb.body).map nodeRuleOf
      ∧ expected1.Services = (blocksOfType "service" pb.body).map serviceRuleOf
      ∧ expected1.ServicePrefixes = (blocksOfType "service_prefix" pb.body).map serviceRuleOf
      ∧ ∀ b ∈ pb.body.Blocks,
          b.Typ ∈ ["node", "node_prefix", "service", "service_prefix"]
          ∧ decodesIfPresent b.body "name" ∧ decodesPresent b.body "policy" :=
  ⟨by decide,
   C1_rule_sequences_in_source_order (loadAs aclPolicy1) "acl_policy1.hcl" expected1 []
     (by decide)⟩

/-- An unknown child block of the policy body: when the loader and the top-level
schema report no error and the body of the first policy block holds a child
block whose keyword is not `node`, `node_prefix`, `service` or `service_prefix`,
`Parse` returns an absent document, and the errors it returns are exactly the
diagnostics of the policy-body schema, among them the "Unsupported block type"
diagnostic of that block. -/
theorem unknown_block_gives_absent_document (load : String → Option File × Diagnostics)
    (fn : String) (file : File) (pb blk : Block)
    (hfile : (load fn).1 = some file) (hload : HasErrors (load fn).2 = false)
    (hroot : HasErrors (file.body.Content aclPolicySchema).2 = false)
    (hpb : firstPolicyBlock file.body = some pb)
    (hblk : blk ∈ pb.body.Blocks)
    (hty : blk.Typ ∉ ["node", "node_prefix", "service", "service_prefix"]) :
    Parse load fn = Outcome.returned (none, (pb.body.Content policyBlockSchema).2)
    ∧ unsupportedBlock policyBlockSchema blk ∈ (pb.body.Content policyBlockSchema).2 := by
  have hm := content_unsupportedBlock_mem pb.body policyBlockSchema blk hblk
    (wanted_false_of_not_ruleType blk hty)
  have he := hasErrors_of_mem _ _ hm rfl
  refine ⟨?_, hm⟩
  rw [parse_stage3 load fn file pb hfile hload hroot hpb he, content_errs]

/-- C2, the code at `acl_policy2.hcl`: the policy body has a decodable `acl`, the
unknown blocks `yolo` and `node_preefix` and one well-formed `node` rule. `Parse`
reports the two schema errors the test expects, but it returns an absent
document, not the document `expected2` that the test lists next to them. -/
theorem C2_acl_policy2_gives_no_document :
    decodedText policy2Block.body "acl" = "read"
    ∧ (policy2Block.body.Blocks.map Block.Typ) = ["yolo", "node", "node_preefix"]
    ∧ (∃ errs, Parse (loadAs aclPolicy2) "acl_policy2.hcl" = Outcome.returned (none, errs)
        ∧ errs.map Diagnostic.Error = expectedErrs2)
    ∧ (∀ errs, Parse (loadAs aclPolicy2) "acl_policy2.hcl"
        ≠ Outcome.returned (some expected2, errs))
    ∧ ¬ ∃ doc errs,
        Parse (loadAs aclPolicy2) "acl_policy2.hcl" = Outcome.returned (some doc, errs) := by
  have hp : Parse (loadAs aclPolicy2) "acl_policy2.hcl"
      = Outcome.returned (none, (policy2Block.body.Content policyBlockSchema).2) := by
    rw [parse_stage3 (loadAs aclPolicy2) "acl_policy2.hcl" aclPolicy2 policy2Block rfl
      (by decide) (by decide) rfl (by decide), content_errs]
  refine ⟨by decide, by decide, ⟨_, hp, by decide⟩, ?_, ?_⟩
  · intro errs h
    rw [hp] at h
    simp at h
  · rintro ⟨doc, errs, h⟩
    rw [hp] at h
    simp at h

/-- C3: the native-syntax loader reports errors only (every diagnostic it returns
has severity `DiagError`). At each of the three validation stages, when the
diagnostics of the stage contain an error, `Parse` returns an absent document
and exactly the diagnostics of that stage, each as one error, in the same order
and unchanged, and nothing of another stage. -/
theorem C3_stage_diagnostics_returned (load : String → Option File × Diagnostics)
    (fn : String)
    (hloader : ∀ x ∈ (load fn).2, x.Severity = DiagnosticSeverity.DiagError) :
    (HasErrors (load fn).2 = true →
      Parse load fn = Outcome.returned (none, (load fn).2))
    ∧ (∀ file, (load fn).1 = some file → HasErrors (load fn).2 = false →
        HasErrors (file.body.Content aclPolicySchema).2 = true →
        Parse load fn = Outcome.returned (none, (file.body.Content aclPolicySchema).2))
    ∧ (∀ file pb, (load fn).1 = some file → HasErrors (load fn).2 = false →
        HasErrors (file.body.Content aclPolicySchema).2 = false →
        firstPolicyBlock file.body = some pb →
        HasErrors (pb.body.Content policyBlockSchema).2 = true →
        Parse load fn = Outcome.returned (none, (pb.body.Content policyBlockSchema).2)) := by
  refine ⟨?_, ?_, ?_⟩
  · intro h
    rw [parse_stage1 load fn h, errs_eq_self_of_all_errors _ hloader]
  · intro file hfile hload h
    rw [parse_stage2 load fn file hfile hload h, content_errs]
  · intro file pb hfile hload hroot hpb h
    rw [parse_stage3 load fn file pb hfile hload hroot hpb h, content_errs]

/-- C3, witness: an unreadable file (loader stage), a misspelt top-level block
(top-level schema) and `acl_policy2.hcl` (policy-body schema), whose errors are,
in order, the two texts the test expects. -/
theorem C3_witness :
    Parse loadUnreadable "missing.hcl"
        = Outcome.returned (none, (loadUnreadable "missing.hcl").2)
    ∧ Parse (loadAs strayFile) "stray.hcl"
        = Outcome.returned (none, (strayFile.body.Content aclPolicySchema).2)
    ∧ Parse (loadAs aclPolicy2) "acl_policy2.hcl"
        = Outcome.returned (none, (policy2Block.body.Content policyBlockSchema).2)
    ∧ (policy2Block.body.Content policyBlockSchema).2.map Diagnostic.Error = expectedErrs2 :=
  ⟨(C3_stage_diagnostics_returned loadUnreadable "missing.hcl" (by decide)).1 (by decide),
   (C3_stage_diagnostics_returned (loadAs strayFile) "stray.hcl" (by decide)).2.1 strayFile rfl
     (by decide) (by decide),
   (C3_stage_diagnostics_returned (loadAs aclPolicy2) "acl_policy2.hcl" (by decide)).2.2
     aclPolicy2 policy2Block rfl (by decide) (by decide) rfl (by decide),
   by decide⟩

/-- C4, the code at an empty file: the loader and the top-level schema report
nothing, the root body has no `policy` block, and `Parse` does not return: reading
`bodyCont.Blocks[0]` raises the run-time panic "index out of range [0] with
length 0". -/
theorem C4_empty_file_panics :
    HasErrors (loadAs emptyFile "empty.hcl").2 = false
    ∧ (emptyFile.body.Content aclPolicySchema).2 = []
    ∧ (firstPolicyBlock emptyFile.body).isNone = true
    ∧ Parse (loadAs emptyFile) "empty.hcl"
        = Outcome.panicked "runtime error: index out of range [0] with length 0" := by
  decide

/-- C5, as the code behaves: when the loader and the top-level schema report no
error and the first `policy` block has no `acl` attribute, `Parse` returns an
absent document and the diagnostics of the policy-body schema; the first of them
is the error "Missing required argument" for `acl`, placed at the missing-item
range of the policy body. `Parse` returns before the loop over the rule blocks,
whatever they hold. -/
theorem C5_missing_acl_gives_absent_document (load : String → Option File × Diagnostics)
    (fn : String) (file : File) (pb : Block)
    (hfile : (load fn).1 = some file) (hload : HasErrors (load fn).2 = false)
    (hroot : HasErrors (file.body.Content aclPolicySchema).2 = false)
    (hpb : firstPolicyBlock file.body = some pb)
    (hacl : lookupAttr pb.body.Attributes "acl" = none) :
    ∃ rest : Diagnostics,
      (pb.body.Content policyBlockSchema).2
        = { Severity := DiagnosticSeverity.DiagError
            Summary := "Missing required argument"
            Detail := "The argument \"acl\" is required, but no definition was found."
            Subject := some pb.body.MissingItemRange } :: rest
      ∧ Parse load fn = Outcome.returned (none,
          { Severity := DiagnosticSeverity.DiagError
            Summary := "Missing required argument"
            Detail := "The argument \"acl\" is required, but no definition was found."
            Subject := some pb.body.MissingItemRange } :: rest) := by
  have hdet : "The argument " ++ quote "acl" ++ " is required, but no definition was found."
      = "The argument \"acl\" is required, but no definition was found." := by decide
  have hd : ∃ rest : Diagnostics, (pb.body.Content policyBlockSchema).2
      = { Severity := DiagnosticSeverity.DiagError
          Summary := "Missing required argument"
          Detail := "The argument \"acl\" is required, but no definition was found."
          Subject := some pb.body.MissingItemRange } :: rest := by
    rw [content_diags_eq]
    have ha : attrLoop pb.body policyBlockSchema.Attributes
        = ([], [missingArgument pb.body "acl"]) := by
      simp [policyBlockSchema, attrLoop, hacl]
    rw [ha]
    simp only [missingArgument, hdet, List.cons_append, List.nil_append]
    exact ⟨_, rfl⟩
  obtain ⟨rest, hrest⟩ := hd
  refine ⟨rest, hrest, ?_⟩
  have he : HasErrors (pb.body.Content policyBlockSchema).2 = true := by
    rw [hrest]; rfl
  rw [parse_stage3 load fn file pb hfile hload hroot hpb he, content_errs, hrest]

/-- C5, witness: `policy { }` without `acl`, holding a rule block without `policy`
that would end the process if it were decoded; the error text is pinned. -/
theorem C5_witness :
    (∃ rest : Diagnostics,
      (noAclBlock.body.Content policyBlockSchema).2
        = { Severity := DiagnosticSeverity.DiagError
            Summary := "Missing required argument"
            Detail := "The argument \"acl\" is required, but no definition was found."
            Subject := some noAclBlock.body.MissingItemRange } :: rest
      ∧ Parse (loadAs noAclFile) "noacl.hcl" = Outcome.returned (none,
          { Severity := DiagnosticSeverity.DiagError
            Summary := "Missing required argument"
            Detail := "The argument \"acl\" is required, but no definition was found."
            Subject := some noAclBlock.body.MissingItemRange } :: rest))
    ∧ (∃ errs, Parse (loadAs noAclFile) "noacl.hcl" = Outcome.returned (none, errs)
        ∧ errs.map Diagnostic.Error
          = ["noacl.hcl:1,8-8: Missing required argument; The argument \"acl\" is required, but no definition was found."]) :=
  ⟨C5_missing_acl_gives_absent_document (loadAs noAclFile) "noacl.hcl" noAclFile noAclBlock
      rfl (by decide) (by decide) rfl rfl,
   ⟨Errs (noAclBlock.body.Content policyBlockSchema).2, by decide, by decide⟩⟩

/-- C5, counterexample: the first `policy` block has no `acl` attribute, and the
root body also holds the misspelt block `polcy`. `Parse` returns at the top-level
schema with the error of `polcy` alone; the list holds no "Missing required
argument" diagnostic. -/
theorem C5_counterexample :
    (firstPolicyBlock noAclStrayFile.body).map
        (fun pb => (lookupAttr pb.body.Attributes "acl").isNone) = some true
    ∧ (∃ errs, Parse (loadAs noAclStrayFile) "noacl.hcl" = Outcome.returned (none, errs)
        ∧ errs.map Diagnostic.Error
          = ["noacl.hcl:4,1-6: Unsupported block type; Blocks of type \"polcy\" are not expected here. Did you mean \"policy\"?"]
        ∧ ∀ e ∈ errs, e.Summary ≠ "Missing required argument") := by
  refine ⟨by decide,
    ⟨Errs (noAclStrayFile.body.Content aclPolicySchema).2, by decide, by decide, by decide⟩⟩

/-- C6, as the code behaves: when the three validation stages report no error and
the `acl` attribute of the first policy block is present but does not decode to
text, `Parse` does not return to its caller: `log.Fatalf` terminates the process
with the message "decode acl attr error: " followed by the diagnostics. -/
theorem C6_undecodable_acl_terminates (load : String → Option File × Diagnostics)
    (fn : String) (file : File) (pb : Block) (aclAttr : Attribute)
    (hfile : (load fn).1 = some file) (hload : HasErrors (load fn).2 = false)
    (hroot : HasErrors (file.body.Content aclPolicySchema).2 = false)
    (hpb : firstPolicyBlock file.body = some pb)
    (hpol : HasErrors (pb.body.Content policyBlockSchema).2 = false)
    (hacl : lookupAttr pb.body.Attributes "acl" = some aclAttr)
    (hbad : HasErrors (DecodeExpression aclAttr.Expr "").2 = true) :
    Parse load fn = Outcome.fatal
      ("decode acl attr error: " ++ Diagnostics.Error (DecodeExpression aclAttr.Expr "").2) := by
  rw [parse_decode load fn file pb aclAttr hfile hload hroot hpb hpol hacl]
  simp only [hbad, if_true]

/-- C6, witness: `policy { acl = read }`. -/
theorem C6_witness :
    Parse (loadAs badAclFile) "badacl.hcl" = Outcome.fatal
      ("decode acl attr error: " ++ Diagnostics.Error (DecodeExpression badAclAttr.Expr "").2) :=
  C6_undecodable_acl_terminates (loadAs badAclFile) "badacl.hcl" badAclFile badAclBlock
    badAclAttr rfl (by decide) (by decide) rfl (by decide) rfl (by decide)

/-- C6, counterexample: on `policy { acl = read }` the `acl` attribute is present
and does not decode, and `Parse` returns nothing: the process is terminated. -/
theorem C6_counterexample :
    (lookupAttr badAclBlock.body.Attributes "acl").isSome = true
    ∧ HasErrors (DecodeExpression badAclAttr.Expr "").2 = true
    ∧ Parse (loadAs badAclFile) "badacl.hcl" = Outcome.fatal
        "decode acl attr error: badacl.hcl:2,9-13: Variables not allowed; Variables may not be used here., and 1 other diagnostic(s)"
    ∧ ¬ ∃ r, Parse (loadAs badAclFile) "badacl.hcl" = Outcome.returned r := by
  have h : Parse (loadAs badAclFile) "badacl.hcl" = Outcome.fatal
      "decode acl attr error: badacl.hcl:2,9-13: Variables not allowed; Variables may not be used here., and 1 other diagnostic(s)" := by
    decide
  refine ⟨by decide, by decide, h, ?_⟩
  rintro ⟨r, hr⟩
  rw [h] at hr
  cases hr

/-- C7, as the code behaves: when the three validation stages report no error and
`acl` decodes, a recognised rule block whose body fails its rule-body schema
makes `Parse` end in `log.Fatalf`: the process is terminated, no document is
returned and no sibling rule reaches the caller. -/
theorem C7_malformed_rule_terminates (load : String → Option File × Diagnostics)
    (fn : String) (file : File) (pb : Block) (aclAttr : Attribute) (blk : Block)
    (s : BodySchema)
    (hfile : (load fn).1 = some file) (hload : HasErrors (load fn).2 = false)
    (hroot : HasErrors (file.body.Content aclPolicySchema).2 = false)
    (hpb : firstPolicyBlock file.body = some pb)
    (hpol : HasErrors (pb.body.Content policyBlockSchema).2 = false)
    (hacl : lookupAttr pb.body.Attributes "acl" = some aclAttr)
    (hdec : HasErrors (DecodeExpression aclAttr.Expr "").2 = false)
    (hblk : blk ∈ pb.body.Blocks)
    (hs : ruleSchema blk.Typ = some s)
    (hbad : HasErrors (blk.body.Content s).2 = true) :
    ∃ m, Parse load fn = Outcome.fatal m :=
  parse_fatal_of_bad_rule load fn file pb aclAttr blk hfile hload hroot hpb hpol hacl hdec hblk
    (not_ruleDecodes_of_errors blk s hs hbad)

/-- C7, witness: a `node` block without `policy` between two well-formed ones. -/
theorem C7_witness : ∃ m, Parse (loadAs badRuleFile) "badrule.hcl" = Outcome.fatal m :=
  C7_malformed_rule_terminates (loadAs badRuleFile) "badrule.hcl" badRuleFile badRuleBlock
    (textAttr "badrule.hcl" 2 3 "acl" "read") noPolicyRule nodeRuleBlockSchema
    rfl (by decide) (by decide) rfl (by decide) rfl (by decide)
    (List.mem_cons_of_mem _ (List.mem_cons_self _ _)) (by decide) (by decide)

/-- C7, counterexample: the policy block is valid, and its second rule block
lacks `policy`; `Parse` returns nothing, although the first and the third rule
block are well formed. -/
theorem C7_counterexample :
    HasErrors (badRuleBlock.body.Content policyBlockSchema).2 = false
    ∧ badRuleBlock.body.Blocks.map (fun b => HasErrors (b.body.Content nodeRuleBlockSchema).2)
        = [false, true, false]
    ∧ Parse (loadAs badRuleFile) "badrule.hcl" = Outcome.fatal
        "block content error: badrule.hcl:3,8-8: Missing required argument; The argument \"policy\" is required, but no definition was found."
    ∧ ¬ ∃ r, Parse (loadAs badRuleFile) "badrule.hcl" = Outcome.returned r := by
  have h : Parse (loadAs badRuleFile) "badrule.hcl" = Outcome.fatal
      "block content error: badrule.hcl:3,8-8: Missing required argument; The argument \"policy\" is required, but no definition was found." := by
    decide
  refine ⟨by decide, by decide, h, ?_⟩
  rintro ⟨r, hr⟩
  rw [h] at hr
  cases hr

/-- C8: whenever `Parse` returns an absent document, the error list it returns is
not empty: it is `Errs` of the diagnostics of one of the three validation
stages, and those diagnostics contain an error. -/
theorem C8_absent_document_has_errors (load : String → Option File × Diagnostics)
    (fn : String) (errs : List Diagnostic)
    (h : Parse load fn = Outcome.returned (none, errs)) :
    errs ≠ []
    ∧ ∃ d, stageDiagnostics load fn d ∧ HasErrors d = true ∧ errs = Errs d := by
  obtain ⟨d, hs, hd, he⟩ := parse_returned_none load fn errs h
  refine ⟨?_, d, hs, hd, he⟩
  rw [he]
  exact (hasErrors_iff_errs_ne_nil d).mp hd

/-- C8, witness: a file that cannot be read. -/
theorem C8_witness :
    Parse loadUnreadable "missing.hcl"
        = Outcome.returned (none, (loadUnreadable "missing.hcl").2)
    ∧ (loadUnreadable "missing.hcl").2 ≠ []
    ∧ ∃ d, stageDiagnostics loadUnreadable "missing.hcl" d ∧ HasErrors d = true
        ∧ (loadUnreadable "missing.hcl").2 = Errs d :=
  ⟨by decide,
   C8_absent_document_has_errors loadUnreadable "missing.hcl" (loadUnreadable "missing.hcl").2
     (by decide)⟩

/-- Whenever `Parse` returns a document, the error list returned with it is
empty; the named result `errs` is never assigned. -/
theorem document_comes_without_errors (load : String → Option File × Diagnostics)
    (fn : String) (doc : ACLPolicy) (errs : List Diagnostic)
    (h : Parse load fn = Outcome.returned (some doc, errs)) : errs = [] := by
  obtain ⟨_, _, _, _, _, _, _, _, _, _, _, _, he⟩ := parse_returned_some load fn doc errs h
  exact he

/-- C9, the code at `acl_policy2.hcl` and everywhere: the test lists two errors
and a document for this input, but `Parse` returns the two errors with an absent
document; and no loader, file name, document and non-empty error list are such
that `Parse` returns the document together with the errors. -/
theorem C9_no_document_with_errors :
    (∃ errs, Parse (loadAs aclPolicy2) "acl_policy2.hcl" = Outcome.returned (none, errs)
      ∧ errs.length = 2)
    ∧ ¬ ∃ (load : String → Option File × Diagnostics) (fn : String) (doc : ACLPolicy)
        (errs : List Diagnostic),
        Parse load fn = Outcome.returned (some doc, errs) ∧ errs ≠ [] := by
  refine ⟨⟨Errs (policy2Block.body.Content policyBlockSchema).2, by decide, by decide⟩, ?_⟩
  rintro ⟨load, fn, doc, errs, h, hne⟩
  obtain ⟨_, _, _, _, _, _, _, _, _, _, _, _, he⟩ := parse_returned_some load fn doc errs h
  exact hne he

theorem unsupported_intentions (s : BodySchema)
    (hs : s = serviceRuleBlockSchema ∨ s = servicePrefixBlockSchema) (c : BodyContent)
    (attr : Attribute) (hname : attr.Name = "intentions") :
    unsupportedArgument s c attr
      = { Severity := DiagnosticSeverity.DiagError
          Summary := "Unsupported argument"
          Detail := "An argument named \"intentions\" is not expected here."
          Subject := some attr.NameRange } := by
  have n0 : nameSuggestion "intentions" [] = "" := by decide
  have n1 : nameSuggestion "intentions" ["name"] = "" := by decide
  have n2 : nameSuggestion "intentions" ["policy"] = "" := by decide
  have n3 : nameSuggestion "intentions" ["name", "policy"] = "" := by decide
  have b1 : serviceRuleBlockSchema.Blocks.any (fun blockS => blockS.Typ == "intentions")
      = false := by decide
  have b2 : servicePrefixBlockSchema.Blocks.any (fun blockS => blockS.Typ == "intentions")
      = false := by decide
  have a1 : serviceRuleBlockSchema.Attributes = [⟨"name", false⟩, ⟨"policy", true⟩] := rfl
  have a2 : servicePrefixBlockSchema.Attributes = [⟨"name", false⟩, ⟨"policy", true⟩] := rfl
  have hd : "An argument named " ++ quote "intentions" ++ " is not expected here." ++ ""
      = "An argument named \"intentions\" is not expected here." := by decide
  rcases hs with rfl | rfl
  · unfold unsupportedArgument
    rw [hname, b1, a1]
    cases h1 : (lookupAttr c.Attributes "name").isNone <;>
      cases h2 : (lookupAttr c.Attributes "policy").isNone <;>
      simp [List.filter_cons, h1, h2, n0, n1, n2, n3, hd]
  · unfold unsupportedArgument
    rw [hname, b2, a2]
    cases h1 : (lookupAttr c.Attributes "name").isNone <;>
      cases h2 : (lookupAttr c.Attributes "policy").isNone <;>
      simp [List.filter_cons, h1, h2, n0, n1, n2, n3, hd]

/-- C10, as the code behaves: the two service schemas declare no `intentions`
attribute. When the three validation stages report no error and `acl` decodes, a
`service` or `service_prefix` block whose body holds an `intentions` attribute
fails its rule-body schema with an "Unsupported argument" diagnostic and `Parse`
ends in `log.Fatalf` instead of accepting the block. Every service rule of a
returned document has empty `Intentions`. -/
theorem C10_intentions_is_not_accepted (load : String → Option File × Diagnostics)
    (fn : String) :
    (∀ file pb aclAttr blk attr s,
      (load fn).1 = some file → HasErrors (load fn).2 = false →
      HasErrors (file.body.Content aclPolicySchema).2 = false →
      firstPolicyBlock file.body = some pb →
      HasErrors (pb.body.Content policyBlockSchema).2 = false →
      lookupAttr pb.body.Attributes "acl" = some aclAttr →
      HasErrors (DecodeExpression aclAttr.Expr "").2 = false →
      blk ∈ pb.body.Blocks →
      (blk.Typ = "service" ∨ blk.Typ = "service_prefix") →
      lookupAttr blk.body.Attributes "intentions" = some attr →
      ruleSchema blk.Typ = some s →
      ({ Severity := DiagnosticSeverity.DiagError
         Summary := "Unsupported argument"
         Detail := "An argument named \"intentions\" is not expected here."
         Subject := some attr.NameRange } : Diagnostic) ∈ (blk.body.Content s).2
      ∧ ∃ m, Parse load fn = Outcome.fatal m)
    ∧ (∀ doc errs, Parse load fn = Outcome.returned (some doc, errs) →
        (∀ r ∈ doc.Services, r.Intentions = "")
        ∧ (∀ r ∈ doc.ServicePrefixes, r.Intentions = "")) := by
  constructor
  · intro file pb aclAttr blk attr s hfile hload hroot hpb hpol hacl hdec hblk hty hattr hs
    have hname := lookupAttr_name _ _ _ hattr
    have hmem : attr ∈ blk.body.Attributes := List.mem_of_find?_eq_some hattr
    have hsch : s = serviceRuleBlockSchema ∨ s = servicePrefixBlockSchema := by
      rcases hty with h | h
      · rw [h] at hs
        have h2 : ruleSchema "service" = some serviceRuleBlockSchema := by decide
        rw [h2] at hs
        exact Or.inl (Option.some.inj hs).symm
      · rw [h] at hs
        have h2 : ruleSchema "service_prefix" = some servicePrefixBlockSchema := by decide
        rw [h2] at hs
        exact Or.inr (Option.some.inj hs).symm
    have hu : s.Attributes.any (fun attrS => attrS.Name == attr.Name) = false := by
      rw [hname]
      rcases hsch with h | h <;> rw [h] <;> decide
    have hm := content_unsupportedArgument_mem blk.body s attr hmem hu
    rw [unsupported_intentions s hsch _ attr hname] at hm
    have he := hasErrors_of_mem _ _ hm rfl
    exact ⟨hm, parse_fatal_of_bad_rule load fn file pb aclAttr blk hfile hload hroot hpb hpol
      hacl hdec hblk (not_ruleDecodes_of_errors blk s hs he)⟩
  · intro doc errs h
    obtain ⟨file, pb, a, v, _, _, _, _, _, _, _, hq, _⟩ := parse_returned_some load fn doc errs h
    obtain ⟨_, _, _, i4, i5, _⟩ := parseBlocks_returned _ _ _ hq
    constructor
    · intro r hr
      rw [i4] at hr
      simp only [List.nil_append, List.mem_map] at hr
      obtain ⟨b, _, hb⟩ := hr
      rw [← hb]
      rfl
    · intro r hr
      rw [i5] at hr
      simp only [List.nil_append, List.mem_map] at hr
      obtain ⟨b, _, hb⟩ := hr
      rw [← hb]
      rfl

/-- C10, witness: a `service` block with `intentions = "deny"` ends the process,
and the services of the document of `acl_policy1.hcl` have empty intentions. -/
theorem C10_witness :
    ((({ Severity := DiagnosticSeverity.DiagError
         Summary := "Unsupported argument"
         Detail := "An argument named \"intentions\" is not expected here."
         Subject := some intentionsAttr.NameRange } : Diagnostic)
        ∈ (intentionsRule.body.Content serviceRuleBlockSchema).2)
      ∧ ∃ m, Parse (loadAs intentionsFile) "intentions.hcl" = Outcome.fatal m)
    ∧ ((∀ r ∈ expected1.Services, r.Intentions = "")
      ∧ (∀ r ∈ expected1.ServicePrefixes, r.Intentions = "")) :=
  ⟨(C10_intentions_is_not_accepted (loadAs intentionsFile) "intentions.hcl").1
      intentionsFile intentionsBlock (textAttr "intentions.hcl" 2 3 "acl" "read") intentionsRule
      intentionsAttr serviceRuleBlockSchema rfl (by decide) (by decide) rfl (by decide) rfl
      (by decide) (List.mem_cons_self _ _) (Or.inl (by decide)) rfl (by decide),
   (C10_intentions_is_not_accepted (loadAs aclPolicy1) "acl_policy1.hcl").2 expected1 []
      (by decide)⟩

/-- C10, counterexample: a `service` block with a valid `policy` and
`intentions = "deny"` is not accepted; `Parse` returns nothing and the process
is terminated with the "Unsupported argument" diagnostic. -/
theorem C10_counterexample :
    decodedText intentionsRule.body "policy" = "write"
    ∧ decodedText intentionsRule.body "intentions" = "deny"
    ∧ Parse (loadAs intentionsFile) "intentions.hcl" = Outcome.fatal
        "block content error: intentions.hcl:3,60-70: Unsupported argument; An argument named \"intentions\" is not expected here."
    ∧ ¬ ∃ r, Parse (loadAs intentionsFile) "intentions.hcl" = Outcome.returned r := by
  have h : Parse (loadAs intentionsFile) "intentions.hcl" = Outcome.fatal
      "block content error: intentions.hcl:3,60-70: Unsupported argument; An argument named \"intentions\" is not expected here." := by
    decide
  refine ⟨by decide, by decide, h, ?_⟩
  rintro ⟨r, hr⟩
  rw [h] at hr
  cases hr

theorem policy_text_of_decodesPresent (b : Block) (h : decodesPresent b.body "policy") :
    ∃ attr, lookupAttr b.body.Attributes "policy" = some attr
      ∧ attr.Expr = Expression.text (decodedText b.body "policy") := by
  obtain ⟨attr, v, ha, he⟩ := h
  exact ⟨attr, ha, by simp [decodedText, ha, he, DecodeExpression]⟩

theorem blockLoop_extraneous_mem (s : BodySchema) (bs : List Block) (blk : Block)
    (l : String × Range) (ls : List (String × Range)) (hb : blk ∈ bs)
    (hw : s.Blocks.any (fun blockS => blockS.Typ == blk.Typ) = true)
    (hl : blk.Labels = l :: ls) :
    extraneousLabel blk.Typ l.2 ∈ (blockLoop s bs).2 := by
  induction bs with
  | nil => simp at hb
  | cons x rest ih =>
    rcases List.mem_cons.mp hb with h | h
    · subst h
      simp [blockLoop, hw, hl]
    · have := ih h
      simp only [blockLoop]
      split
      · split
        · exact List.mem_cons_of_mem _ this
        · exact this
      · exact this

/-- A block whose type the schema declares and whose header carries a label is
reported by `Content`. -/
theorem content_extraneous_mem (b : Body) (s : BodySchema) (blk : Block)
    (l : String × Range) (ls : List (String × Range)) (hb : blk ∈ b.Blocks)
    (hw : s.Blocks.any (fun blockS => blockS.Typ == blk.Typ) = true)
    (hl : blk.Labels = l :: ls) :
    extraneousLabel blk.Typ l.2 ∈ (b.Content s).2 := by
  rw [content_diags_eq]
  apply List.mem_append_left
  apply List.mem_append_left
  apply List.mem_append_right
  exact blockLoop_extraneous_mem s _ blk l ls hb hw hl

theorem wanted_of_ruleType (b : Block)
    (h : b.Typ ∈ ["node", "node_prefix", "service", "service_prefix"]) :
    policyBlockSchema.Blocks.any (fun blockS => blockS.Typ == b.Typ) = true := by
  simp only [List.mem_cons, List.mem_singleton, List.not_mem_nil, or_false] at h
  rcases h with h | h | h | h <;> rw [h] <;> decide

/-- C11, as the code behaves: whenever `Parse` returns a document, each of the four
sequences matches, rule by rule and in order, the child blocks of the first
policy block with the keyword of the sequence: the policy of the i-th rule is
the decoded text of the `policy` attribute of the i-th such block, and that
attribute is present. Nothing makes that text non-empty. -/
theorem C11_policy_is_the_decoded_attribute (load : String → Option File × Diagnostics)
    (fn : String) (doc : ACLPolicy) (errs : List Diagnostic)
    (h : Parse load fn = Outcome.returned (some doc, errs)) :
    ∃ file pb, (load fn).1 = some file ∧ firstPolicyBlock file.body = some pb
      ∧ List.Forall₂ (fun (r : NodeRule) b => policyFrom r.Policy b)
          doc.Nodes (blocksOfType "node" pb.body)
      ∧ List.Forall₂ (fun (r : NodeRule) b => policyFrom r.Policy b)
          doc.NodePrefixes (blocksOfType "node_prefix" pb.body)
      ∧ List.Forall₂ (fun (r : ServiceRule) b => policyFrom r.Policy b)
          doc.Services (blocksOfType "service" pb.body)
      ∧ List.Forall₂ (fun (r : ServiceRule) b => policyFrom r.Policy b)
          doc.ServicePrefixes (blocksOfType "service_prefix" pb.body) := by
  obtain ⟨file, pb, a, v, hf, _, _, hpb, hp, ha, he, hq, _⟩ := parse_returned_some load fn doc errs h
  obtain ⟨_, i2, i3, i4, i5, i6⟩ := parseBlocks_returned _ _ _ hq
  obtain ⟨_, hw, _, _⟩ := content_clean pb.body policyBlockSchema ((content_clean_iff _ _).mp hp)
  have key : ∀ b ∈ pb.body.Blocks, policyFrom (decodedText b.body "policy") b := by
    intro b hb
    obtain ⟨s, hs⟩ := ruleSchema_of_ruleType b.Typ (ruleTypes_of_wanted b (hw b hb).1)
    exact policy_text_of_decodesPresent b (i6 b hb s hs).2.2
  have keyT : ∀ t, ∀ b ∈ blocksOfType t pb.body,
      policyFrom (decodedText b.body "policy") b :=
    fun t b hb => key b (List.mem_filter.mp hb).1
  refine ⟨file, pb, hf, hpb, ?_, ?_, ?_, ?_⟩
  · rw [i2, List.nil_append]
    exact List.forall₂_map_left_iff.mpr (List.forall₂_same.mpr (keyT "node"))
  · rw [i3, List.nil_append]
    exact List.forall₂_map_left_iff.mpr (List.forall₂_same.mpr (keyT "node_prefix"))
  · rw [i4, List.nil_append]
    exact List.forall₂_map_left_iff.mpr (List.forall₂_same.mpr (keyT "service"))
  · rw [i5, List.nil_append]
    exact List.forall₂_map_left_iff.mpr (List.forall₂_same.mpr (keyT "service_prefix"))

/-- C11, witness: the document of `acl_policy1.hcl`. -/
theorem C11_witness :
    Parse (loadAs aclPolicy1) "acl_policy1.hcl" = Outcome.returned (some expected1, [])
    ∧ ∃ file pb, (loadAs aclPolicy1 "acl_policy1.hcl").1 = some file
      ∧ firstPolicyBlock file.body = some pb
      ∧ List.Forall₂ (fun (r : NodeRule) b => policyFrom r.Policy b)
          expected1.Nodes (blocksOfType "node" pb.body)
      ∧ List.Forall₂ (fun (r : NodeRule) b => policyFrom r.Policy b)
          expected1.NodePrefixes (blocksOfType "node_prefix" pb.body)
      ∧ List.Forall₂ (fun (r : ServiceRule) b => policyFrom r.Policy b)
          expected1.Services (blocksOfType "service" pb.body)
      ∧ List.Forall₂ (fun (r : ServiceRule) b => policyFrom r.Policy b)
          expected1.ServicePrefixes (blocksOfType "service_prefix" pb.body) :=
  ⟨by decide,
   C11_policy_is_the_decoded_attribute (loadAs aclPolicy1) "acl_policy1.hcl" expected1 []
     (by decide)⟩

/-- C11, counterexample: a `node` block written with `policy = ""` passes every
stage, and `Parse` returns a document whose only node rule has the empty
policy. -/
theorem C11_counterexample :
    decodedText emptyPolicyRule.body "policy" = ""
    ∧ Parse (loadAs emptyPolicyFile) "emptypolicy.hcl"
        = Outcome.returned
            (some { ACL := "read", Nodes := [{ Name := "a", Policy := "" }], NodePrefixes := [],
                    Services := [], ServicePrefixes := [] }, [])
    ∧ ∃ doc errs, Parse (loadAs emptyPolicyFile) "emptypolicy.hcl"
          = Outcome.returned (some doc, errs)
        ∧ ∃ r ∈ doc.Nodes, r.Policy = "" := by
  refine ⟨by decide, by decide,
    ⟨{ ACL := "read", Nodes := [{ Name := "a", Policy := "" }], NodePrefixes := [],
       Services := [], ServicePrefixes := [] }, [], by decide,
     ⟨{ Name := "a", Policy := "" }, List.mem_cons_self _ _, rfl⟩⟩⟩

/-- C12, as the code behaves: no schema of the program names a label. When the
loader and the top-level schema report no error, a `node`, `node_prefix`,
`service` or `service_prefix` block whose header carries a label makes the
policy-body schema report "Extraneous label" at the first label, and `Parse`
returns an absent document with the diagnostics of that schema; the label is
never read as a name, with or without a `name` attribute in the body. -/
theorem C12_label_is_rejected (load : String → Option File × Diagnostics)
    (fn : String) (file : File) (pb blk : Block) (l : String × Range)
    (ls : List (String × Range))
    (hfile : (load fn).1 = some file) (hload : HasErrors (load fn).2 = false)
    (hroot : HasErrors (file.body.Content aclPolicySchema).2 = false)
    (hpb : firstPolicyBlock file.body = some pb)
    (hblk : blk ∈ pb.body.Blocks)
    (hty : blk.Typ ∈ ["node", "node_prefix", "service", "service_prefix"])
    (hl : blk.Labels = l :: ls) :
    Parse load fn = Outcome.returned (none, (pb.body.Content policyBlockSchema).2)
    ∧ extraneousLabel blk.Typ l.2 ∈ (pb.body.Content policyBlockSchema).2 := by
  have hm := content_extraneous_mem pb.body policyBlockSchema blk l ls hblk
    (wanted_of_ruleType blk hty) hl
  have he := hasErrors_of_mem _ _ hm rfl
  refine ⟨?_, hm⟩
  rw [parse_stage3 load fn file pb hfile hload hroot hpb he, content_errs]

/-- C12, witness: `node "foo" { policy = "write" }`. -/
theorem C12_witness :
    Parse (loadAs labelFile) "label.hcl"
        = Outcome.returned (none, (labelBlock.body.Content policyBlockSchema).2)
    ∧ extraneousLabel labelRule.Typ fooRange ∈ (labelBlock.body.Content policyBlockSchema).2 :=
  C12_label_is_rejected (loadAs labelFile) "label.hcl" labelFile labelBlock labelRule
    ("foo", fooRange) [] rfl (by decide) (by decide) rfl (List.mem_cons_self _ _) (by decide) rfl

/-- C12, counterexample: for `node "foo" { policy = "write" }`, and also for
`node "foo" { name = "bar" policy = "write" }`, `Parse` decodes no rule: it
returns no document and the error "Extraneous label for node". -/
theorem C12_counterexample :
    labelRule.Labels.map Prod.fst = ["foo"]
    ∧ (lookupAttr labelRule.body.Attributes "name").isNone = true
    ∧ (∃ errs, Parse (loadAs labelFile) "label.hcl" = Outcome.returned (none, errs)
        ∧ errs.map Diagnostic.Error
          = ["label.hcl:3,8-13: Extraneous label for node; No labels are expected for node blocks."])
    ∧ labelNameRule.Labels.map Prod.fst = ["foo"]
    ∧ decodedText labelNameRule.body "name" = "bar"
    ∧ (∃ errs, Parse (loadAs labelNameFile) "label.hcl" = Outcome.returned (none, errs)
        ∧ errs.map Diagnostic.Error
          = ["label.hcl:3,8-13: Extraneous label for node; No labels are expected for node blocks."]) := by
  refine ⟨by decide, by decide,
    ⟨Errs (labelBlock.body.Content policyBlockSchema).2, ?_, ?_⟩, by decide, by decide,
    ⟨Errs ((policyBlock "label.hcl" [textAttr "label.hcl" 2 3 "acl" "read"]
        [labelNameRule]).body.Content policyBlockSchema).2, ?_, ?_⟩⟩
  · exact parse_stage3 (loadAs labelFile) "label.hcl" labelFile labelBlock rfl (by decide)
      (by decide) rfl (by decide)
  · decide
  · exact parse_stage3 (loadAs labelNameFile) "label.hcl" labelNameFile
      (policyBlock "label.hcl" [textAttr "label.hcl" 2 3 "acl" "read"] [labelNameRule]) rfl
      (by decide) (by decide) rfl (by decide)
  · decide

theorem ruleSchema_shape (t : String) (s : BodySchema) (h : ruleSchema t = some s) :
    s.Blocks = [⟨t⟩] ∧ s.Attributes = [⟨"name", false⟩, ⟨"policy", true⟩] := by
  unfold ruleSchema at h
  split at h
  · rename_i ht; cases h; subst ht; exact ⟨rfl, rfl⟩
  · split at h
    · rename_i ht; cases h; subst ht; exact ⟨rfl, rfl⟩
    · split at h
      · rename_i ht; cases h; subst ht; exact ⟨rfl, rfl⟩
      · split at h
        · rename_i ht; cases h; subst ht; exact ⟨rfl, rfl⟩
        · cases h

theorem attrLoop_congr (b b' : Body) (hA : b.Attributes = b'.Attributes)
    (hR : b.MissingItemRange = b'.MissingItemRange) (as : List AttributeSchema) :
    attrLoop b as = attrLoop b' as := by
  induction as with
  | nil => rfl
  | cons a rest ih => simp only [attrLoop, ih, hA, missingArgument, hR]

theorem unsupportedArgument_congr (s : BodySchema) (c c' : BodyContent)
    (h : c.Attributes = c'.Attributes) (attr : Attribute) :
    unsupportedArgument s c attr = unsupportedArgument s c' attr := by
  simp only [unsupportedArgument, h]

/-- Blocks that the schema declares and that carry no label give no diagnostic
in the loop of `PartialContent`. -/
theorem blockLoop_no_diags (s : BodySchema) (bs : List Block)
    (h : ∀ blk ∈ bs, s.Blocks.any (fun blockS => blockS.Typ == blk.Typ) = true →
      blk.Labels = []) :
    (blockLoop s bs).2 = [] := by
  induction bs with
  | nil => rfl
  | cons x rest ih =>
    have hrest := ih (fun blk hb => h blk (List.mem_cons_of_mem x hb))
    simp only [blockLoop]
    split
    · rename_i hw
      rw [h x (List.mem_cons_self x rest) hw]
      exact hrest
    · exact hrest

/-- When every nested block has a type the schema declares and no label,
`Content` gives the diagnostics and the attributes it gives for the body
without its nested blocks. -/
theorem content_withoutBlocks (body : Body) (s : BodySchema)
    (h : ∀ nb ∈ body.Blocks,
      s.Blocks.any (fun blockS => blockS.Typ == nb.Typ) = true ∧ nb.Labels = []) :
    (body.Content s).2 = ((withoutBlocks body).Content s).2
    ∧ (body.Content s).1.Attributes = ((withoutBlocks body).Content s).1.Attributes := by
  have hA : body.Attributes = (withoutBlocks body).Attributes := rfl
  have hR : body.MissingItemRange = (withoutBlocks body).MissingItemRange := rfl
  have hloop := attrLoop_congr body (withoutBlocks body) hA hR s.Attributes
  have hattrs : (body.Content s).1.Attributes = ((withoutBlocks body).Content s).1.Attributes := by
    rw [content_attrs_eq, content_attrs_eq, hloop]
  refine ⟨?_, hattrs⟩
  have hb : (blockLoop s body.Blocks).2 = [] :=
    blockLoop_no_diags s body.Blocks (fun nb hnb _ => (h nb hnb).2)
  have hf : body.Blocks.filter
      (fun block => !(s.Blocks.any (fun blockS => blockS.Typ == block.Typ))) = [] := by
    apply List.filter_eq_nil_iff.mpr
    intro nb hnb
    simp [(h nb hnb).1]
  have hu : ∀ attr, unsupportedArgument s (body.PartialContent s).1 attr
      = unsupportedArgument s ((withoutBlocks body).PartialContent s).1 attr :=
    fun attr => unsupportedArgument_congr s _ _ hattrs attr
  rw [content_diags_eq, content_diags_eq, hb, hf, ← hloop]
  have hw : (withoutBlocks body).Blocks = [] := rfl
  have hwA : (withoutBlocks body).Attributes = body.Attributes := rfl
  rw [hw, hwA]
  simp only [blockLoop, List.filter_nil, List.map_nil, List.append_nil]
  congr 1
  exact List.map_congr_left (fun attr _ => hu attr)

theorem parseNodeBlock_congr (body body' : Body) (p : ACLPolicy)
    (h1 : (body.Content nodeRuleBlockSchema).2 = (body'.Content nodeRuleBlockSchema).2)
    (h2 : (body.Content nodeRuleBlockSchema).1.Attributes
      = (body'.Content nodeRuleBlockSchema).1.Attributes) :
    parseNodeBlock body p = parseNodeBlock body' p := by
  unfold parseNodeBlock
  simp only [h1, h2]

theorem parseNodePrefixBlock_congr (body body' : Body) (p : ACLPolicy)
    (h1 : (body.Content nodePrefixBlockSchema).2 = (body'.Content nodePrefixBlockSchema).2)
    (h2 : (body.Content nodePrefixBlockSchema).1.Attributes
      = (body'.Content nodePrefixBlockSchema).1.Attributes) :
    parseNodePrefixBlock body p = parseNodePrefixBlock body' p := by
  unfold parseNodePrefixBlock
  simp only [h1, h2]

theorem parseServiceBlock_congr (body body' : Body) (p : ACLPolicy)
    (h1 : (body.Content serviceRuleBlockSchema).2 = (body'.Content serviceRuleBlockSchema).2)
    (h2 : (body.Content serviceRuleBlockSchema).1.Attributes
      = (body'.Content serviceRuleBlockSchema).1.Attributes) :
    parseServiceBlock body p = parseServiceBlock body' p := by
  unfold parseServiceBlock
  simp only [h1, h2]

theorem parseServicePrefixBlock_congr (body body' : Body) (p : ACLPolicy)
    (h1 : (body.Content servicePrefixBlockSchema).2 = (body'.Content servicePrefixBlockSchema).2)
    (h2 : (body.Content servicePrefixBlockSchema).1.Attributes
      = (body'.Content servicePrefixBlockSchema).1.Attributes) :
    parseServicePrefixBlock body p = parseServicePrefixBlock body' p := by
  unfold parseServicePrefixBlock
  simp only [h1, h2]

theorem wanted_single (t : String) (s : BodySchema) (nb : Block) (hs : s.Blocks = [⟨t⟩]) :
    s.Blocks.any (fun blockS => blockS.Typ == nb.Typ) = decide (t = nb.Typ) := by
  rw [hs]
  by_cases h : t = nb.Typ <;> simp [h]

/-- C13, as the code behaves: each rule-body schema declares one block type, the
keyword of the rule itself. A nested block with another keyword, or with a
label, makes the rule-body schema report an error. Nested blocks without label
that repeat the keyword of the enclosing rule give no diagnostic and are
ignored: the rule parser does on the body what it does on the body without
its nested blocks. -/
theorem C13_nested_blocks_in_rule_bodies (body : Body) :
    (∀ t s, ruleSchema t = some s → ∀ nb ∈ body.Blocks, (nb.Typ ≠ t ∨ nb.Labels ≠ []) →
      HasErrors (body.Content s).2 = true)
    ∧ ((∀ nb ∈ body.Blocks, nb.Typ = "node" ∧ nb.Labels = []) →
        ∀ p, parseNodeBlock body p = parseNodeBlock (withoutBlocks body) p)
    ∧ ((∀ nb ∈ body.Blocks, nb.Typ = "node_prefix" ∧ nb.Labels = []) →
        ∀ p, parseNodePrefixBlock body p = parseNodePrefixBlock (withoutBlocks body) p)
    ∧ ((∀ nb ∈ body.Blocks, nb.Typ = "service" ∧ nb.Labels = []) →
        ∀ p, parseServiceBlock body p = parseServiceBlock (withoutBlocks body) p)
    ∧ ((∀ nb ∈ body.Blocks, nb.Typ = "service_prefix" ∧ nb.Labels = []) →
        ∀ p, parseServicePrefixBlock body p = parseServicePrefixBlock (withoutBlocks body) p) := by
  refine ⟨?_, ?_, ?_, ?_, ?_⟩
  · intro t s hs nb hnb hor
    have hshape := (ruleSchema_shape t s hs).1
    by_cases ht : nb.Typ = t
    · have hlab : nb.Labels ≠ [] := by
        rcases hor with h | h
        · exact absurd ht h
        · exact h
      cases hl : nb.Labels with
      | nil => exact absurd hl hlab
      | cons l ls =>
        have hw : s.Blocks.any (fun blockS => blockS.Typ == nb.Typ) = true := by
          rw [wanted_single t s nb hshape]; simp [ht]
        exact hasErrors_of_mem _ _ (content_extraneous_mem body s nb l ls hnb hw hl) rfl
    · have hw : s.Blocks.any (fun blockS => blockS.Typ == nb.Typ) = false := by
        rw [wanted_single t s nb hshape]
        simp only [decide_eq_false_iff_not]
        exact fun h => ht h.symm
      exact hasErrors_of_mem _ _ (content_unsupportedBlock_mem body s nb hnb hw) rfl
  · intro h p
    have hc := content_withoutBlocks body nodeRuleBlockSchema (fun nb hnb => by
      refine ⟨?_, (h nb hnb).2⟩
      rw [wanted_single "node" nodeRuleBlockSchema nb rfl]; simp [(h nb hnb).1])
    exact parseNodeBlock_congr body _ p hc.1 hc.2
  · intro h p
    have hc := content_withoutBlocks body nodePrefixBlockSchema (fun nb hnb => by
      refine ⟨?_, (h nb hnb).2⟩
      rw [wanted_single "node_prefix" nodePrefixBlockSchema nb rfl]; simp [(h nb hnb).1])
    exact parseNodePrefixBlock_congr body _ p hc.1 hc.2
  · intro h p
    have hc := content_withoutBlocks body serviceRuleBlockSchema (fun nb hnb => by
      refine ⟨?_, (h nb hnb).2⟩
      rw [wanted_single "service" serviceRuleBlockSchema nb rfl]; simp [(h nb hnb).1])
    exact parseServiceBlock_congr body _ p hc.1 hc.2
  · intro h p
    have hc := content_withoutBlocks body servicePrefixBlockSchema (fun nb hnb => by
      refine ⟨?_, (h nb hnb).2⟩
      rw [wanted_single "service_prefix" servicePrefixBlockSchema nb rfl]; simp [(h nb hnb).1])
    exact parseServicePrefixBlock_congr body _ p hc.1 hc.2

/-- C13, witness: the body with a nested `node` block fails the schema of a
`node_prefix` rule, and the parser of `node` rules treats it as the body without
the nested block. -/
theorem C13_witness :
    HasErrors (nestedBody.Content nodePrefixBlockSchema).2 = true
    ∧ ∀ p, parseNodeBlock nestedBody p = parseNodeBlock (withoutBlocks nestedBody) p :=
  ⟨(C13_nested_blocks_in_rule_bodies nestedBody).1 "node_prefix" nodePrefixBlockSchema
      (by decide) innerNode (List.mem_cons_self _ _) (Or.inl (by decide)),
   (C13_nested_blocks_in_rule_bodies nestedBody).2.1 (fun nb hnb => by
      have e : nb = innerNode := List.mem_singleton.mp hnb
      rw [e]
      exact ⟨rfl, rfl⟩)⟩

/-- C13, counterexample: a `node` block whose body holds a nested `node` block
passes its rule-body schema without any diagnostic and is decoded into the rule
`a`/`write`, exactly as the same tree without the nested block. -/
theorem C13_counterexample :
    nestedRule.Typ = "node"
    ∧ nestedRule.body.Blocks.map Block.Typ = ["node"]
    ∧ (nestedRule.body.Content nodeRuleBlockSchema).2 = []
    ∧ Parse (loadAs nestedFile) "nested.hcl"
        = Outcome.returned
            (some { ACL := "read", Nodes := [{ Name := "a", Policy := "write" }],
                    NodePrefixes := [], Services := [], ServicePrefixes := [] }, [])
    ∧ Parse (loadAs nestedFile) "nested.hcl" = Parse (loadAs unnestedFile) "nested.hcl" := by
  decide

/-! ## Lemmas on several `policy` blocks -/

theorem wantedPolicy_iff (b : Block) :
    aclPolicySchema.Blocks.any (fun blockS => blockS.Typ == b.Typ) = true ↔ b.Typ = "policy" := by
  rw [wanted_single "policy" aclPolicySchema b rfl]
  simp only [decide_eq_true_eq]
  exact eq_comm

theorem notWantedPolicy_eq :
    (fun b : Block => !(aclPolicySchema.Blocks.any (fun blockS => blockS.Typ == b.Typ)))
      = (fun b : Block => !(decide (b.Typ = "policy"))) := by
  funext b
  by_cases h : b.Typ = "policy"
  · rw [(wantedPolicy_iff b).mpr h]; simp [h]
  · have : aclPolicySchema.Blocks.any (fun blockS => blockS.Typ == b.Typ) = false := by
      cases hc : aclPolicySchema.Blocks.any (fun blockS => blockS.Typ == b.Typ) with
      | false => rfl
      | true => exact absurd ((wantedPolicy_iff b).mp hc) h
    rw [this]; simp [h]

theorem extraPolicyBlocks_mem (bs : List Block) (b : Block) (h : b ∈ extraPolicyBlocks bs) :
    b ∈ bs ∧ b.Typ = "policy" := by
  induction bs with
  | nil => simp [extraPolicyBlocks] at h
  | cons x rest ih =>
    simp only [extraPolicyBlocks] at h
    split at h
    · have := List.mem_filter.mp h
      exact ⟨List.mem_cons_of_mem x this.1, by simpa using this.2⟩
    · exact ⟨List.mem_cons_of_mem x (ih h).1, (ih h).2⟩

theorem blockLoop_keepFirst_diags (bs : List Block)
    (h : ∀ b ∈ extraPolicyBlocks bs, b.Labels = []) :
    (blockLoop aclPolicySchema (keepFirstPolicyBlocks bs)).2 = (blockLoop aclPolicySchema bs).2 := by
  induction bs with
  | nil => rfl
  | cons x rest ih =>
    by_cases hx : x.Typ = "policy"
    · have hw := (wantedPolicy_iff x).mpr hx
      have h1 : (blockLoop aclPolicySchema
          (rest.filter (fun y => !(decide (y.Typ = "policy"))))).2 = [] := by
        apply blockLoop_no_diags
        intro blk hb hwb
        have := (List.mem_filter.mp hb).2
        simp [(wantedPolicy_iff blk).mp hwb] at this
      have h2 : (blockLoop aclPolicySchema rest).2 = [] := by
        apply blockLoop_no_diags
        intro blk hb hwb
        apply h
        simp only [extraPolicyBlocks, hx, if_true]
        exact List.mem_filter.mpr ⟨hb, by simp [(wantedPolicy_iff blk).mp hwb]⟩
      have hw' : aclPolicySchema.Blocks.any (fun blockS => blockS.Typ == "policy") = true := by
        decide
      simp only [keepFirstPolicyBlocks, hx, if_true, blockLoop, hw']
      cases x.Labels with
      | nil => simp only [h1, h2]
      | cons l ls => simp only [h1, h2]
    · have hw : aclPolicySchema.Blocks.any (fun blockS => blockS.Typ == x.Typ) = false := by
        cases hc : aclPolicySchema.Blocks.any (fun blockS => blockS.Typ == x.Typ) with
        | false => rfl
        | true => exact absurd ((wantedPolicy_iff x).mp hc) hx
      have hrest : ∀ b ∈ extraPolicyBlocks rest, b.Labels = [] := by
        intro b hb
        apply h
        simpa only [extraPolicyBlocks, hx, if_false] using hb
      simp only [keepFirstPolicyBlocks, hx, if_false, blockLoop, hw, Bool.false_eq_true]
      exact ih hrest

theorem blockLoop_keepFirst_head (bs : List Block)
    (h : (blockLoop aclPolicySchema bs).2 = []) :
    (blockLoop aclPolicySchema (keepFirstPolicyBlocks bs)).1.head?
      = (blockLoop aclPolicySchema bs).1.head? := by
  induction bs with
  | nil => rfl
  | cons x rest ih =>
    by_cases hx : x.Typ = "policy"
    · have hw := (wantedPolicy_iff x).mpr hx
      simp only [blockLoop, hw, if_true] at h
      simp only [keepFirstPolicyBlocks, hx, if_true, blockLoop, hw]
      cases hl : x.Labels with
      | nil => rfl
      | cons l ls => rw [hl] at h; simp at h
    · have hw : aclPolicySchema.Blocks.any (fun blockS => blockS.Typ == x.Typ) = false := by
        cases hc : aclPolicySchema.Blocks.any (fun blockS => blockS.Typ == x.Typ) with
        | false => rfl
        | true => exact absurd ((wantedPolicy_iff x).mp hc) hx
      simp only [blockLoop, hw, Bool.false_eq_true, if_false] at h
      simp only [keepFirstPolicyBlocks, hx, if_false, blockLoop, hw, Bool.false_eq_true]
      exact ih h

theorem keepFirst_leftover (bs : List Block) :
    (keepFirstPolicyBlocks bs).filter (fun b => !(decide (b.Typ = "policy")))
      = bs.filter (fun b => !(decide (b.Typ = "policy"))) := by
  induction bs with
  | nil => rfl
  | cons x rest ih =>
    by_cases hx : x.Typ = "policy"
    · simp [keepFirstPolicyBlocks, hx, List.filter_cons, List.filter_filter]
    · simp [keepFirstPolicyBlocks, hx, List.filter_cons, ih]

/-- The top-level schema gives the same diagnostics on the tree that keeps only
the first `policy` block when no extra `policy` block carries a label, and then
the same first selected block when it reports nothing. -/
theorem content_keepFirst (file : File)
    (h : ∀ b ∈ extraPolicyBlocks file.body.Blocks, b.Labels = []) :
    ((keepFirstPolicy file).body.Content aclPolicySchema).2
        = (file.body.Content aclPolicySchema).2
    ∧ ((file.body.Content aclPolicySchema).2 = [] →
        ((keepFirstPolicy file).body.Content aclPolicySchema).1.Blocks.head?
          = (file.body.Content aclPolicySchema).1.Blocks.head?) := by
  have hA : (keepFirstPolicy file).body.Attributes = file.body.Attributes := rfl
  have hR : (keepFirstPolicy file).body.MissingItemRange = file.body.MissingItemRange := rfl
  have hB : (keepFirstPolicy file).body.Blocks = keepFirstPolicyBlocks file.body.Blocks := rfl
  have hloop := attrLoop_congr (keepFirstPolicy file).body file.body hA hR
    aclPolicySchema.Attributes
  have hattrs : ((keepFirstPolicy file).body.PartialContent aclPolicySchema).1.Attributes
      = (file.body.PartialContent aclPolicySchema).1.Attributes := by
    show (attrLoop _ _).1 = (attrLoop _ _).1
    rw [hloop]
  constructor
  · rw [content_diags_eq, content_diags_eq, hloop, hA, hB, blockLoop_keepFirst_diags _ h,
      notWantedPolicy_eq, keepFirst_leftover]
    rw [List.map_congr_left (fun attr _ => unsupportedArgument_congr aclPolicySchema
      ((keepFirstPolicy file).body.PartialContent aclPolicySchema).1
      (file.body.PartialContent aclPolicySchema).1 hattrs attr)]
  · intro hc
    rw [content_diags_eq] at hc
    simp only [List.append_eq_nil] at hc
    rw [content_blocks_eq, content_blocks_eq, hB]
    exact blockLoop_keepFirst_head _ hc.1.1.2

/-- `Parse` reads of the tree only the diagnostics of the top-level schema and,
when there is none, the first block the schema selected. -/
theorem parse_congr (load load' : String → Option File × Diagnostics) (fn : String)
    (file file' : File)
    (hf : (load fn).1 = some file) (hf' : (load' fn).1 = some file')
    (hd : (load' fn).2 = (load fn).2)
    (hc : (file'.body.Content aclPolicySchema).2 = (file.body.Content aclPolicySchema).2)
    (hh : (file.body.Content aclPolicySchema).2 = [] →
      (file'.body.Content aclPolicySchema).1.Blocks.head?
        = (file.body.Content aclPolicySchema).1.Blocks.head?) :
    Parse load' fn = Parse load fn := by
  unfold Parse
  simp only [hf, hf', hd, hc]
  split
  · rfl
  · split
    · rfl
    · rename_i hne
      have hclean := (content_clean_iff file.body aclPolicySchema).mp (by simpa using hne)
      have hhead := hh hclean
      cases hb : (file.body.Content aclPolicySchema).1.Blocks with
      | nil =>
        cases hb' : (file'.body.Content aclPolicySchema).1.Blocks with
        | nil => rfl
        | cons y ys => rw [hb, hb'] at hhead; simp at hhead
      | cons x xs =>
        cases hb' : (file'.body.Content aclPolicySchema).1.Blocks with
        | nil => rw [hb, hb'] at hhead; simp at hhead
        | cons y ys =>
          rw [hb, hb'] at hhead
          simp only [List.head?_cons, Option.some.injEq] at hhead
          subst hhead
          rfl

/-- C14, as the code behaves: when no `policy` block after the first one carries a
label, the result of `Parse` (document and errors, or the way it ends) is its
result on the tree that keeps only the first `policy` block: the bodies of the
extra blocks are not read. An extra `policy` block with a label makes the
top-level schema report "Extraneous label for policy", and `Parse` returns an
absent document. -/
theorem C14_extra_policy_blocks (file : File) (diags : Diagnostics) (fn : String) :
    ((∀ b ∈ extraPolicyBlocks file.body.Blocks, b.Labels = []) →
      Parse (fun _ => (some file, diags)) fn
        = Parse (fun _ => (some (keepFirstPolicy file), diags)) fn)
    ∧ (∀ b ∈ extraPolicyBlocks file.body.Blocks, ∀ l ls, b.Labels = l :: ls →
        HasErrors diags = false →
        Parse (fun _ => (some file, diags)) fn
          = Outcome.returned (none, (file.body.Content aclPolicySchema).2)
        ∧ extraneousLabel "policy" l.2 ∈ (file.body.Content aclPolicySchema).2) := by
  constructor
  · intro h
    obtain ⟨hc, hh⟩ := content_keepFirst file h
    exact (parse_congr (fun _ => (some file, diags)) (fun _ => (some (keepFirstPolicy file), diags))
      fn file (keepFirstPolicy file) rfl rfl rfl hc hh).symm
  · intro b hb l ls hl hd
    obtain ⟨hmem, hty⟩ := extraPolicyBlocks_mem _ b hb
    have hm := content_extraneous_mem file.body aclPolicySchema b l ls hmem
      ((wantedPolicy_iff b).mpr hty) hl
    rw [hty] at hm
    have he := hasErrors_of_mem _ _ hm rfl
    refine ⟨?_, hm⟩
    rw [parse_stage2 (fun _ => (some file, diags)) fn file rfl hd he, content_errs]

/-- C14, witness: two `policy` blocks without label, the second with an unknown
block and no `acl`; and two `policy` blocks, the second with a label. -/
theorem C14_witness :
    Parse (fun _ => (some twoPolicyFile, [])) "two.hcl"
        = Parse (fun _ => (some (keepFirstPolicy twoPolicyFile), [])) "two.hcl"
    ∧ (Parse (fun _ => (some labelledExtraFile, [])) "two.hcl"
          = Outcome.returned (none, (labelledExtraFile.body.Content aclPolicySchema).2)
        ∧ extraneousLabel "policy" (lineRange "two.hcl" 6 8 15)
            ∈ (labelledExtraFile.body.Content aclPolicySchema).2) :=
  ⟨(C14_extra_policy_blocks twoPolicyFile [] "two.hcl").1 (fun b hb => by
      have e : b = secondPolicy := List.mem_singleton.mp hb
      rw [e]
      rfl),
   (C14_extra_policy_blocks labelledExtraFile [] "two.hcl").2 labelledPolicy
      (List.mem_cons_self _ _) ("extra", lineRange "two.hcl" 6 8 15) [] rfl (by decide)⟩

/-- C14, counterexample: the root body holds two `policy` blocks, the second one
`policy "extra" { }`. `Parse` returns no document and the error "Extraneous
label for policy", while on the tree with the first block alone it returns the
document. -/
theorem C14_counterexample :
    labelledExtraFile.body.Blocks.map Block.Typ = ["policy", "policy"]
    ∧ (∃ errs, Parse (loadAs labelledExtraFile) "two.hcl" = Outcome.returned (none, errs)
        ∧ errs.map Diagnostic.Error
          = ["two.hcl:6,8-15: Extraneous label for policy; No labels are expected for policy blocks."])
    ∧ Parse (loadAs (keepFirstPolicy labelledExtraFile)) "two.hcl"
        = Outcome.returned
            (some { ACL := "read", Nodes := [{ Name := "test", Policy := "write" }],
                    NodePrefixes := [], Services := [], ServicePrefixes := [] }, [])
    ∧ Parse (loadAs labelledExtraFile) "two.hcl"
        ≠ Parse (loadAs (keepFirstPolicy labelledExtraFile)) "two.hcl" := by
  refine ⟨by decide,
    ⟨Errs (labelledExtraFile.body.Content aclPolicySchema).2, by decide, by decide⟩,
    by decide, by decide⟩

/-! ## Lemmas comparing the four rule parsers -/

theorem hasErrors_append (a b : Diagnostics) :
    HasErrors (a ++ b) = (HasErrors a || HasErrors b) := by
  simp [HasErrors, List.any_append]

theorem hasErrors_unsupported (s : BodySchema) (c : BodyContent) (l : List Attribute) :
    HasErrors (l.map (unsupportedArgument s c)) = !l.isEmpty := by
  cases l with
  | nil => rfl
  | cons x xs => simp [HasErrors, unsupportedArgument]

/-- On a body without nested blocks, two schemas with the same attributes agree
on whether `Content` reports an error. -/
theorem content_hasErrors_noBlocks (body : Body) (s s' : BodySchema)
    (hA : s.Attributes = s'.Attributes) (hB : body.Blocks = []) :
    HasErrors (body.Content s).2 = HasErrors (body.Content s').2 := by
  rw [content_diags_eq, content_diags_eq, hB, hA]
  simp only [blockLoop, List.filter_nil, List.map_nil, List.append_nil, hasErrors_append,
    hasErrors_unsupported]

theorem parseNodeBlock_cases (body : Body) (p : ACLPolicy) :
    (∃ q, parseNodeBlock body p = Outcome.returned q)
    ∨ ∃ m, parseNodeBlock body p = Outcome.fatal m := by
  cases hr : parseNodeBlock body p with
  | returned q => exact Or.inl ⟨q, rfl⟩
  | fatal m => exact Or.inr ⟨m, rfl⟩
  | panicked m => exact absurd hr (parseNodeBlock_not_panicked _ _ _)

theorem parseNodePrefixBlock_cases (body : Body) (p : ACLPolicy) :
    (∃ q, parseNodePrefixBlock body p = Outcome.returned q)
    ∨ ∃ m, parseNodePrefixBlock body p = Outcome.fatal m := by
  cases hr : parseNodePrefixBlock body p with
  | returned q => exact Or.inl ⟨q, rfl⟩
  | fatal m => exact Or.inr ⟨m, rfl⟩
  | panicked m => exact absurd hr (parseNodePrefixBlock_not_panicked _ _ _)

theorem parseServiceBlock_cases (body : Body) (p : ACLPolicy) :
    (∃ q, parseServiceBlock body p = Outcome.returned q)
    ∨ ∃ m, parseServiceBlock body p = Outcome.fatal m := by
  cases hr : parseServiceBlock body p with
  | returned q => exact Or.inl ⟨q, rfl⟩
  | fatal m => exact Or.inr ⟨m, rfl⟩
  | panicked m => exact absurd hr (parseServiceBlock_not_panicked _ _ _)

theorem parseServicePrefixBlock_cases (body : Body) (p : ACLPolicy) :
    (∃ q, parseServicePrefixBlock body p = Outcome.returned q)
    ∨ ∃ m, parseServicePrefixBlock body p = Outcome.fatal m := by
  cases hr : parseServicePrefixBlock body p with
  | returned q => exact Or.inl ⟨q, rfl⟩
  | fatal m => exact Or.inr ⟨m, rfl⟩
  | panicked m => exact absurd hr (parseServicePrefixBlock_not_panicked _ _ _)

/-- A nested block whose keyword a schema with one block type does not declare
makes `Content` report an error. -/
theorem hasErrors_of_foreign_block (body : Body) (s : BodySchema) (t : String) (nb : Block)
    (hs : s.Blocks = [⟨t⟩]) (hnb : nb ∈ body.Blocks) (ht : nb.Typ ≠ t) :
    HasErrors (body.Content s).2 = true := by
  have hw : s.Blocks.any (fun blockS => blockS.Typ == nb.Typ) = false := by
    rw [wanted_single t s nb hs]
    simp only [decide_eq_false_iff_not]
    exact fun h => ht h.symm
  exact hasErrors_of_mem _ _ (content_unsupportedBlock_mem body s nb hnb hw) rfl

theorem typ_count (bs : List Block)
    (h : ∀ b ∈ bs, b.Typ ∈ ["node", "node_prefix", "service", "service_prefix"]) :
    (bs.filter (fun b => b.Typ == "node")).length
      + (bs.filter (fun b => b.Typ == "node_prefix")).length
      + (bs.filter (fun b => b.Typ == "service")).length
      + (bs.filter (fun b => b.Typ == "service_prefix")).length = bs.length := by
  induction bs with
  | nil => rfl
  | cons x rest ih =>
    have ih2 := ih (fun b hb => h b (List.mem_cons_of_mem x hb))
    have hx := h x (List.mem_cons_self x rest)
    simp only [List.mem_cons, List.mem_singleton, List.not_mem_nil, or_false] at hx
    rcases hx with hx | hx | hx | hx <;> simp [List.filter_cons, hx] <;> omega

/-- C15, as the code behaves: on a rule body without nested blocks the four rule
parsers either all end in `log.Fatalf` or all return, and then each has appended
to its own sequence the rule with the same decoded `name` and `policy`. On a
body with a nested block they differ: the block ends every parser whose own
keyword it does not carry. -/
theorem C15_rule_parsers_agree_without_nested_blocks (body : Body) (p : ACLPolicy) :
    (body.Blocks = [] →
      ((∃ m, parseNodeBlock body p = Outcome.fatal m)
        ∧ (∃ m, parseNodePrefixBlock body p = Outcome.fatal m)
        ∧ (∃ m, parseServiceBlock body p = Outcome.fatal m)
        ∧ (∃ m, parseServicePrefixBlock body p = Outcome.fatal m))
      ∨ (parseNodeBlock body p = Outcome.returned { p with Nodes := p.Nodes ++
            [{ Name := decodedText body "name", Policy := decodedText body "policy" }] }
        ∧ parseNodePrefixBlock body p = Outcome.returned { p with NodePrefixes :=
            p.NodePrefixes ++
            [{ Name := decodedText body "name", Policy := decodedText body "policy" }] }
        ∧ parseServiceBlock body p = Outcome.returned { p with Services := p.Services ++
            [{ Name := decodedText body "name", Policy := decodedText body "policy",
               Intentions := "" }] }
        ∧ parseServicePrefixBlock body p = Outcome.returned { p with ServicePrefixes :=
            p.ServicePrefixes ++
            [{ Name := decodedText body "name", Policy := decodedText body "policy",
               Intentions := "" }] }))
    ∧ (∀ nb ∈ body.Blocks,
        (nb.Typ ≠ "node" → ∃ m, parseNodeBlock body p = Outcome.fatal m)
        ∧ (nb.Typ ≠ "node_prefix" → ∃ m, parseNodePrefixBlock body p = Outcome.fatal m)
        ∧ (nb.Typ ≠ "service" → ∃ m, parseServiceBlock body p = Outcome.fatal m)
        ∧ (nb.Typ ≠ "service_prefix" →
            ∃ m, parseServicePrefixBlock body p = Outcome.fatal m)) := by
  constructor
  · intro hB
    have e2 := content_hasErrors_noBlocks body nodePrefixBlockSchema nodeRuleBlockSchema rfl hB
    have e3 := content_hasErrors_noBlocks body serviceRuleBlockSchema nodeRuleBlockSchema rfl hB
    have e4 := content_hasErrors_noBlocks body servicePrefixBlockSchema nodeRuleBlockSchema rfl hB
    by_cases hD : (body.Content nodeRuleBlockSchema).2 = []
        ∧ decodesIfPresent body "name" ∧ decodesPresent body "policy"
    · right
      obtain ⟨hc, hn, hp⟩ := hD
      have h1 := (content_clean_iff body nodeRuleBlockSchema).mpr hc
      have c2 := (content_clean_iff body nodePrefixBlockSchema).mp (by rw [e2]; exact h1)
      have c3 := (content_clean_iff body serviceRuleBlockSchema).mp (by rw [e3]; exact h1)
      have c4 := (content_clean_iff body servicePrefixBlockSchema).mp (by rw [e4]; exact h1)
      exact ⟨parseNodeBlock_returns body p hc hn hp,
        parseNodePrefixBlock_returns body p c2 hn hp,
        parseServiceBlock_returns body p c3 hn hp,
        parseServicePrefixBlock_returns body p c4 hn hp⟩
    · left
      refine ⟨?_, ?_, ?_, ?_⟩
      · rcases parseNodeBlock_cases body p with ⟨q, hq⟩ | hm
        · obtain ⟨hc, hn, hp, _⟩ := parseNodeBlock_returned body p q hq
          exact absurd ⟨hc, hn, hp⟩ hD
        · exact hm
      · rcases parseNodePrefixBlock_cases body p with ⟨q, hq⟩ | hm
        · obtain ⟨hc, hn, hp, _⟩ := parseNodePrefixBlock_returned body p q hq
          have h1 := (content_clean_iff body nodePrefixBlockSchema).mpr hc
          rw [e2] at h1
          exact absurd ⟨(content_clean_iff body nodeRuleBlockSchema).mp h1, hn, hp⟩ hD
        · exact hm
      · rcases parseServiceBlock_cases body p with ⟨q, hq⟩ | hm
        · obtain ⟨hc, hn, hp, _⟩ := parseServiceBlock_returned body p q hq
          have h1 := (content_clean_iff body serviceRuleBlockSchema).mpr hc
          rw [e3] at h1
          exact absurd ⟨(content_clean_iff body nodeRuleBlockSchema).mp h1, hn, hp⟩ hD
        · exact hm
      · rcases parseServicePrefixBlock_cases body p with ⟨q, hq⟩ | hm
        · obtain ⟨hc, hn, hp, _⟩ := parseServicePrefixBlock_returned body p q hq
          have h1 := (content_clean_iff body servicePrefixBlockSchema).mpr hc
          rw [e4] at h1
          exact absurd ⟨(content_clean_iff body nodeRuleBlockSchema).mp h1, hn, hp⟩ hD
        · exact hm
  · intro nb hnb
    refine ⟨?_, ?_, ?_, ?_⟩
    · intro ht
      exact ⟨_, parseNodeBlock_fatal body p
        (hasErrors_of_foreign_block body nodeRuleBlockSchema "node" nb rfl hnb ht)⟩
    · intro ht
      exact ⟨_, parseNodePrefixBlock_fatal body p
        (hasErrors_of_foreign_block body nodePrefixBlockSchema "node_prefix" nb rfl hnb ht)⟩
    · intro ht
      exact ⟨_, parseServiceBlock_fatal body p
        (hasErrors_of_foreign_block body serviceRuleBlockSchema "service" nb rfl hnb ht)⟩
    · intro ht
      exact ⟨_, parseServicePrefixBlock_fatal body p
        (hasErrors_of_foreign_block body servicePrefixBlockSchema "service_prefix" nb rfl hnb
          ht)⟩

/-- C15, witness: on the body `name = "a" policy = "write"`, which has no nested
block, the four parsers agree; on the same body with a nested `node` block the
three parsers other than `parseNodeBlock` end the process. -/
theorem C15_witness :
    (((∃ m, parseNodeBlock (withoutBlocks nestedBody) expected1 = Outcome.fatal m)
        ∧ (∃ m, parseNodePrefixBlock (withoutBlocks nestedBody) expected1 = Outcome.fatal m)
        ∧ (∃ m, parseServiceBlock (withoutBlocks nestedBody) expected1 = Outcome.fatal m)
        ∧ (∃ m, parseServicePrefixBlock (withoutBlocks nestedBody) expected1 = Outcome.fatal m))
      ∨ (parseNodeBlock (withoutBlocks nestedBody) expected1
            = Outcome.returned { expected1 with Nodes := expected1.Nodes ++
              [{ Name := decodedText (withoutBlocks nestedBody) "name",
                 Policy := decodedText (withoutBlocks nestedBody) "policy" }] }
        ∧ parseNodePrefixBlock (withoutBlocks nestedBody) expected1
            = Outcome.returned { expected1 with NodePrefixes := expected1.NodePrefixes ++
              [{ Name := decodedText (withoutBlocks nestedBody) "name",
                 Policy := decodedText (withoutBlocks nestedBody) "policy" }] }
        ∧ parseServiceBlock (withoutBlocks nestedBody) expected1
            = Outcome.returned { expected1 with Services := expected1.Services ++
              [{ Name := decodedText (withoutBlocks nestedBody) "name",
                 Policy := decodedText (withoutBlocks nestedBody) "policy",
                 Intentions := "" }] }
        ∧ parseServicePrefixBlock (withoutBlocks nestedBody) expected1
            = Outcome.returned { expected1 with ServicePrefixes := expected1.ServicePrefixes ++
              [{ Name := decodedText (withoutBlocks nestedBody) "name",
                 Policy := decodedText (withoutBlocks nestedBody) "policy",
                 Intentions := "" }] }))
    ∧ ((∃ m, parseNodePrefixBlock nestedBody expected1 = Outcome.fatal m)
      ∧ (∃ m, parseServiceBlock nestedBody expected1 = Outcome.fatal m)
      ∧ (∃ m, parseServicePrefixBlock nestedBody expected1 = Outcome.fatal m)) :=
  ⟨(C15_rule_parsers_agree_without_nested_blocks (withoutBlocks nestedBody) expected1).1 rfl,
   ((C15_rule_parsers_agree_without_nested_blocks nestedBody expected1).2 innerNode
      (List.mem_cons_self _ _)).2.1 (by decide),
   ((C15_rule_parsers_agree_without_nested_blocks nestedBody expected1).2 innerNode
      (List.mem_cons_self _ _)).2.2.1 (by decide),
   ((C15_rule_parsers_agree_without_nested_blocks nestedBody expected1).2 innerNode
      (List.mem_cons_self _ _)).2.2.2 (by decide)⟩

/-- C15, counterexample: on the rule body `name = "a" policy = "write"
node { policy = "read" }`, `parseNodeBlock` returns with the new rule while the
three other parsers end the process with "Unsupported block type". -/
theorem C15_counterexample :
    parseNodeBlock nestedBody expected1
        = Outcome.returned { expected1 with Nodes := expected1.Nodes ++
            [{ Name := "a", Policy := "write" }] }
    ∧ parseNodePrefixBlock nestedBody expected1 = Outcome.fatal
        "block content error: nested.hcl:4,5-9: Unsupported block type; Blocks of type \"node\" are not expected here."
    ∧ parseServiceBlock nestedBody expected1 = Outcome.fatal
        "block content error: nested.hcl:4,5-9: Unsupported block type; Blocks of type \"node\" are not expected here."
    ∧ parseServicePrefixBlock nestedBody expected1 = Outcome.fatal
        "block content error: nested.hcl:4,5-9: Unsupported block type; Blocks of type \"node\" are not expected here." := by
  decide

/-- C16: a rule parser that returns has appended exactly one rule at the end of
its own sequence and left the default ACL and the three other sequences as they
were; and when `Parse` returns a document, its total number of rules is the
number of child blocks that the policy-body schema selected. -/
theorem C16_one_rule_per_block (load : String → Option File × Diagnostics) (fn : String) :
    (∀ body p q, parseNodeBlock body p = Outcome.returned q →
      ∃ r, q.Nodes = p.Nodes ++ [r] ∧ q.ACL = p.ACL ∧ q.NodePrefixes = p.NodePrefixes
        ∧ q.Services = p.Services ∧ q.ServicePrefixes = p.ServicePrefixes)
    ∧ (∀ body p q, parseNodePrefixBlock body p = Outcome.returned q →
      ∃ r, q.NodePrefixes = p.NodePrefixes ++ [r] ∧ q.ACL = p.ACL ∧ q.Nodes = p.Nodes
        ∧ q.Services = p.Services ∧ q.ServicePrefixes = p.ServicePrefixes)
    ∧ (∀ body p q, parseServiceBlock body p = Outcome.returned q →
      ∃ r, q.Services = p.Services ++ [r] ∧ q.ACL = p.ACL ∧ q.Nodes = p.Nodes
        ∧ q.NodePrefixes = p.NodePrefixes ∧ q.ServicePrefixes = p.ServicePrefixes)
    ∧ (∀ body p q, parseServicePrefixBlock body p = Outcome.returned q →
      ∃ r, q.ServicePrefixes = p.ServicePrefixes ++ [r] ∧ q.ACL = p.ACL ∧ q.Nodes = p.Nodes
        ∧ q.NodePrefixes = p.NodePrefixes ∧ q.Services = p.Services)
    ∧ (∀ doc errs, Parse load fn = Outcome.returned (some doc, errs) →
      ∃ file pb, (load fn).1 = some file ∧ firstPolicyBlock file.body = some pb
        ∧ ruleCount doc = (pb.body.Content policyBlockSchema).1.Blocks.length) := by
  refine ⟨?_, ?_, ?_, ?_, ?_⟩
  · intro body p q h
    obtain ⟨_, _, _, hq⟩ := parseNodeBlock_returned body p q h
    subst hq
    exact ⟨_, rfl, rfl, rfl, rfl, rfl⟩
  · intro body p q h
    obtain ⟨_, _, _, hq⟩ := parseNodePrefixBlock_returned body p q h
    subst hq
    exact ⟨_, rfl, rfl, rfl, rfl, rfl⟩
  · intro body p q h
    obtain ⟨_, _, _, hq⟩ := parseServiceBlock_returned body p q h
    subst hq
    exact ⟨_, rfl, rfl, rfl, rfl, rfl⟩
  · intro body p q h
    obtain ⟨_, _, _, hq⟩ := parseServicePrefixBlock_returned body p q h
    subst hq
    exact ⟨_, rfl, rfl, rfl, rfl, rfl⟩
  · intro doc errs h
    obtain ⟨file, pb, a, v, hf, _, _, hpb, hp, _, _, hq, _⟩ :=
      parse_returned_some load fn doc errs h
    obtain ⟨_, i2, i3, i4, i5, _⟩ := parseBlocks_returned _ _ _ hq
    obtain ⟨hb, hw, _, _⟩ :=
      content_clean pb.body policyBlockSchema ((content_clean_iff _ _).mp hp)
    refine ⟨file, pb, hf, hpb, ?_⟩
    rw [hb, ← typ_count pb.body.Blocks (fun b hb' => ruleTypes_of_wanted b (hw b hb').1)]
    simp only [ruleCount, i2, i3, i4, i5, List.nil_append, List.length_map]

/-- C16, witness: `parseNodeBlock` on the rule body `name = "a" policy = "write"
node { policy = "read" }` with the document of `acl_policy1.hcl` as the state,
and `Parse` on `acl_policy1.hcl`, whose four rules come from four blocks. -/
theorem C16_witness :
    (∃ r, ({ expected1 with Nodes := expected1.Nodes ++ [{ Name := "a", Policy := "write" }] }
          : ACLPolicy).Nodes = expected1.Nodes ++ [r]
        ∧ ({ expected1 with Nodes := expected1.Nodes ++ [{ Name := "a", Policy := "write" }] }
          : ACLPolicy).ACL = expected1.ACL
        ∧ ({ expected1 with Nodes := expected1.Nodes ++ [{ Name := "a", Policy := "write" }] }
          : ACLPolicy).NodePrefixes = expected1.NodePrefixes
        ∧ ({ expected1 with Nodes := expected1.Nodes ++ [{ Name := "a", Policy := "write" }] }
          : ACLPolicy).Services = expected1.Services
        ∧ ({ expected1 with Nodes := expected1.Nodes ++ [{ Name := "a", Policy := "write" }] }
          : ACLPolicy).ServicePrefixes = expected1.ServicePrefixes)
    ∧ (∃ file pb, (loadAs aclPolicy1 "acl_policy1.hcl").1 = some file
        ∧ firstPolicyBlock file.body = some pb
        ∧ ruleCount expected1 = (pb.body.Content policyBlockSchema).1.Blocks.length)
    ∧ ruleCount expected1 = 4 :=
  ⟨(C16_one_rule_per_block (loadAs aclPolicy1) "acl_policy1.hcl").1 nestedBody expected1
      { expected1 with Nodes := expected1.Nodes ++ [{ Name := "a", Policy := "write" }] }
      (by decide),
   (C16_one_rule_per_block (loadAs aclPolicy1) "acl_policy1.hcl").2.2.2.2 expected1 []
      (by decide),
   by decide⟩

end ACLValidator
